import Mathlib

/-!
Shallow embedding of tools/video_splitter.py.

Python strings are modelled as lists of characters (ASCII fragment), the
filesystem as a pair of maps from paths to directory flags and file
contents, and the external collaborators (ffprobe, ffmpeg) as explicit
parameters.  Each definition mirrors a function of the source file; the
line numbers cited in comments refer to tools/video_splitter.py.
-/

/-- A Python string / filesystem path, modelled as its list of characters. -/
abbrev PyStr := List Char

/-- Pointwise update of a map, used for filesystem state transitions. -/
def upd {α : Type} (f : PyStr → α) (p : PyStr) (v : α) : PyStr → α :=
  fun q => if q = p then v else f q

/-- The ASCII digit character for a value below ten (values of nine and
above all give the digit nine; the function is only applied below ten). -/
def digitChar : Nat → Char
  | 0 => '0' | 1 => '1' | 2 => '2' | 3 => '3' | 4 => '4'
  | 5 => '5' | 6 => '6' | 7 => '7' | 8 => '8' | _ => '9'

/-- Decimal digit string, fuel-based recursion: with fuel above the
value this is the usual most-significant-first digit expansion. -/
def toDecimalCore : Nat → Nat → List Char
  | 0, _ => []
  | fuel + 1, n =>
    if n < 10 then [digitChar n]
    else toDecimalCore fuel (n / 10) ++ [digitChar (n % 10)]

/-- Decimal digit string of a natural number, as produced by Python
string formatting of an integer. -/
def toDecimal (n : Nat) : List Char :=
  toDecimalCore (n + 1) n

/-- Numeric value of a digit string (also the value Python int() assigns
to a string of ASCII digits). -/
def digitsVal (l : List Char) : Nat :=
  l.foldl (fun a c => 10 * a + (c.toNat - 48)) 0

/-- Python format specifier 03d: the decimal digits, left padded with
zeros to width three (source line 91 and 93). -/
def pad3 (n : Nat) : List Char :=
  List.replicate (3 - (toDecimal n).length) '0' ++ toDecimal n

/-- The per-part name component part_XXX used for directories and files
(source lines 91 and 93). -/
def partName (n : Nat) : PyStr :=
  "part_".data ++ pad3 n

/-- posixpath.join for two components: an absolute second component wins,
otherwise a separator is inserted unless the first component is empty or
already ends with one. -/
def pathJoinL (a b : PyStr) : PyStr :=
  if b.head? = some '/' then b
  else if a = [] ∨ a.getLast? = some '/' then a ++ b
  else a ++ '/' :: b

/-- The effective prefix a root contributes through pathJoinL when the
joined component is relative. -/
def rootPrefix (a : PyStr) : PyStr :=
  if a = [] ∨ a.getLast? = some '/' then a else a ++ ['/']

/-- posixpath.dirname: everything before the last separator, with
trailing separators stripped unless the head is all separators. -/
def dirnameL (p : PyStr) : PyStr :=
  let rev := p.reverse
  let afterRev := rev.takeWhile (fun c => c ≠ '/')
  let headRev := rev.drop afterRev.length
  if headRev = [] then []
  else if headRev.all (fun c => c = '/') then headRev.reverse
  else (headRev.dropWhile (fun c => c = '/')).reverse

/-- posixpath.basename: everything after the last separator. -/
def basenameL (p : PyStr) : PyStr :=
  (p.reverse.takeWhile (fun c => c ≠ '/')).reverse

/-- Root part of os.path.splitext applied to a basename: the part before
the last dot, unless every character before that dot is itself a dot. -/
def splitextRoot (b : PyStr) : PyStr :=
  let rev := b.reverse
  let extRev := rev.takeWhile (fun c => c ≠ '.')
  if extRev.length = b.length then b
  else
    let rootRev := rev.drop (extRev.length + 1)
    if rootRev.all (fun c => c = '.') then b
    else rootRev.reverse

/-- Default output root derived from the input path (source line 76):
a sibling directory named after the source file with suffix _split. -/
def defaultRoot (input_path : PyStr) : PyStr :=
  pathJoinL (dirnameL input_path) (splitextRoot (basenameL input_path) ++ "_split".data)

/-- Resolution of the output root (source lines 75 and 76): a missing or
empty argument is falsy in Python and selects the derived default. -/
def resolveRoot (input_path : PyStr) (output_root : Option PyStr) : PyStr :=
  match output_root with
  | none => defaultRoot input_path
  | some r => if r = [] then defaultRoot input_path else r

/-- Per-part directory (source line 91). -/
def partDir (root : PyStr) (n : Nat) : PyStr :=
  pathJoinL root (partName n)

/-- Per-part output media file (source line 93). -/
def outFile (root : PyStr) (n : Nat) : PyStr :=
  pathJoinL (partDir root n) (partName n ++ ".mp4".data)

/-- Per-part metadata file (source line 95). -/
def infoPath (root : PyStr) (n : Nat) : PyStr :=
  pathJoinL (partDir root n) "info.json".data

/-- Python str.strip default whitespace (ASCII fragment). -/
def isPySpace (c : Char) : Bool :=
  c = ' ' || c = '\t' || c = '\n' || c = '\r' || c = '\x0b' || c = '\x0c'

/-- Python str.strip: remove leading and trailing whitespace. -/
def stripL (l : PyStr) : PyStr :=
  ((l.dropWhile isPySpace).reverse.dropWhile isPySpace).reverse

/-- Python str.lower on the ASCII fragment. -/
def lowerL (l : PyStr) : PyStr :=
  l.map Char.toLower

/-- Python str.endswith for a single suffix. -/
def endswithL (l suffix : PyStr) : Bool :=
  suffix.reverse.isPrefixOf l.reverse

/-- Python str.split with a one-character separator: empty pieces are
kept, and the empty string yields one empty piece. -/
def splitOnChar (sep : Char) : List Char → List (List Char)
  | [] => [[]]
  | c :: rest =>
    match splitOnChar sep rest with
    | [] => [[]]
    | g :: gs => if c = sep then [] :: g :: gs else (c :: g) :: gs

/-- CPython int() on a string (ASCII decimal literals, without underscore
separators): surrounding whitespace is stripped, one optional sign is
accepted, then a nonempty run of digits is required. -/
def pyInt? (l : PyStr) : Option Int :=
  match stripL l with
  | '+' :: d => if !d.isEmpty && d.all Char.isDigit then some ((digitsVal d : Int)) else none
  | '-' :: d => if !d.isEmpty && d.all Char.isDigit then some (-(digitsVal d : Int)) else none
  | d => if !d.isEmpty && d.all Char.isDigit then some ((digitsVal d : Int)) else none

/-- The error classes parse_duration_to_seconds can raise: the explicit
ValueError for a colon expression without exactly three pieces (source
line 28), a ValueError escaping from int() (source lines 29, 34, 36, 38),
and the final ValueError for an unrecognized expression (source line 44). -/
inductive ParseError where
  | invalidFormat (s : PyStr)
  | intConversion
  | unparseable (s : PyStr)
deriving DecidableEq, Repr

deriving instance DecidableEq for Except

/-- int applied to the extracted digit characters of a suffixed
expression (source lines 34, 36 and 38): int() raises on an empty string. -/
def intOfDigits (d : PyStr) : Except ParseError Int :=
  if d = [] then .error .intConversion else .ok ((digitsVal d : Int))

/-- Body of parse_duration_to_seconds after the normalization on source
line 23 has been applied to the argument (source lines 24 to 44). -/
def parseNorm (t : PyStr) : Except ParseError Int :=
  if t.contains ':' then
    match splitOnChar ':' t with
    | [p1, p2, p3] =>
      match pyInt? p1, pyInt? p2, pyInt? p3 with
      | some h, some m, some sec => .ok (h * 3600 + m * 60 + sec)
      | _, _, _ => .error .intConversion
    | _ => .error (.invalidFormat t)
  else if endswithL t "s".data || endswithL t " sec".data then
    intOfDigits (t.filter Char.isDigit)
  else if endswithL t "m".data || endswithL t " min".data then
    (intOfDigits (t.filter Char.isDigit)).map (· * 60)
  else if endswithL t "h".data || endswithL t " hr".data || endswithL t " hour".data then
    (intOfDigits (t.filter Char.isDigit)).map (· * 3600)
  else if !t.isEmpty && t.all Char.isDigit then
    .ok ((digitsVal t : Int))
  else
    .error (.unparseable t)

/-- parse_duration_to_seconds (source lines 13 to 44): strip and lower
the expression (source line 23), then apply the grammar cascade. -/
def parse_duration_to_seconds (s : String) : Except ParseError Int :=
  parseNorm (lowerL (stripL s.data))

/-- Segment start offset (source line 87). -/
def segStart (maxPart i : Nat) : Nat := i * maxPart

/-- Segment duration (source lines 88 and 89): the full maximum unless
less than that remains. -/
def segDuration (total maxPart i : Nat) : Nat :=
  let remaining := total - segStart maxPart i
  if maxPart < remaining then maxPart else remaining

/-- Number of parts (source line 72): the exact ceiling of total over
maxPart for a positive maxPart.  The source computes math.ceil over
binary float division, which agrees with the exact ceiling whenever the
operands are below 2 to the 53 (any realistic media duration). -/
def numParts (total maxPart : Nat) : Nat := (total + maxPart - 1) / maxPart

/-- One planned segment: 1-based index, start, length and end in seconds
(the fields of the per-part metadata record, source lines 96 to 102). -/
structure SegmentDescriptor where
  index : Nat
  start_seconds : Nat
  duration_seconds : Nat
  end_seconds : Nat
deriving DecidableEq, Repr

/-- The full segmentation plan computed by the loop of split_video
(source lines 86 to 102), as a pure function of the floored total
duration and the maximum part length. -/
def planSegments (total maxPart : Nat) : List SegmentDescriptor :=
  (List.range (numParts total maxPart)).map fun i =>
    { index := i + 1
      start_seconds := segStart maxPart i
      duration_seconds := segDuration total maxPart i
      end_seconds := segStart maxPart i + segDuration total maxPart i }

/-- Floor truncation of the probed duration (source line 71):
math.floor applied to the ffprobe result. -/
def total_seconds_int (probe : ℚ) : Int := ⌊probe⌋

/-- Contents of one per-segment metadata record (source lines 96 to 102). -/
structure SegInfo where
  index : Nat
  start_seconds : Nat
  duration_seconds : Nat
  end_seconds : Nat
  source_file : PyStr
deriving DecidableEq, Repr

/-- Contents of a file as far as the run can observe them: an output
written by a successful ffmpeg invocation, a metadata record, or
arbitrary pre-existing data. -/
inductive FileData where
  | media (source : PyStr) (start : Nat) (duration : Nat)
  | infoJson (info : SegInfo)
  | pre (tag : Nat)
deriving DecidableEq, Repr

/-- Filesystem state: which directories exist and what each file holds. -/
structure FS where
  dirs : PyStr → Bool
  files : PyStr → Option FileData

/-- Observable actions of a run, in program order: os.makedirs,
os.remove, the ffmpeg collaborator invocation, and writing info.json. -/
inductive Event where
  | mkdir (p : PyStr)
  | removeFile (p : PyStr)
  | ffmpeg (start : Nat) (input : PyStr) (duration : Nat) (out : PyStr)
  | writeInfo (p : PyStr) (info : SegInfo)
deriving DecidableEq, Repr

/-- The dictionary returned by split_video (source lines 144 to 150). -/
structure Summary where
  total_seconds : Nat
  max_part_seconds : Nat
  num_parts : Nat
  output_root : PyStr
  outputs : List PyStr
deriving DecidableEq, Repr

/-- Static data of one run of split_video: the arguments together with
the ambient environment (path resolution and collaborator results).
ffmpegOk gives the exit status of the transcode collaborator for the
0-based segment it is invoked on. -/
structure SVConfig where
  input_path : PyStr
  max_part_seconds : Nat
  total_seconds : Nat
  root : PyStr
  overwrite : Bool
  dry_run : Bool
  abspath : PyStr → PyStr
  ffmpegOk : Nat → Bool

/-- The metadata record for 0-based segment i (source lines 96 to 102). -/
def mkInfo (cfg : SVConfig) (i : Nat) : SegInfo :=
  { index := i + 1
    start_seconds := segStart cfg.max_part_seconds i
    duration_seconds := segDuration cfg.total_seconds cfg.max_part_seconds i
    end_seconds := segStart cfg.max_part_seconds i
      + segDuration cfg.total_seconds cfg.max_part_seconds i
    source_file := cfg.abspath cfg.input_path }

/-- Result of materializing one segment. -/
structure StepOut where
  fs : FS
  events : List Event
  created : List PyStr
  aborted : Bool

/-- One iteration of the loop of split_video (source lines 86 to 141) for
0-based segment i: ensure the part directory, then in dry-run mode only
report; otherwise skip an existing output when overwrite was not
requested (still refreshing info.json), remove an existing output when it
was, and finally invoke ffmpeg and on success write the output and its
metadata record; a failing ffmpeg aborts the run (sys.exit(1)). -/
def segStep (cfg : SVConfig) (fs : FS) (i : Nat) : StepOut :=
  let start := segStart cfg.max_part_seconds i
  let duration := segDuration cfg.total_seconds cfg.max_part_seconds i
  let pd := partDir cfg.root (i + 1)
  let fsd : FS := ⟨upd fs.dirs pd true, fs.files⟩
  let out := outFile cfg.root (i + 1)
  let ip := infoPath cfg.root (i + 1)
  let info := mkInfo cfg i
  if cfg.dry_run then
    { fs := fsd, events := [.mkdir pd], created := [], aborted := false }
  else
    let transcodeFrom : FS → List Event → StepOut := fun fs1 evs1 =>
      if cfg.ffmpegOk i then
        { fs := ⟨fs1.dirs,
            upd (upd fs1.files out (some (.media cfg.input_path start duration)))
              ip (some (.infoJson info))⟩
          events := evs1 ++ [.ffmpeg start cfg.input_path duration out, .writeInfo ip info]
          created := [out]
          aborted := false }
      else
        { fs := fs1
          events := evs1 ++ [.ffmpeg start cfg.input_path duration out]
          created := []
          aborted := true }
    match fsd.files out, cfg.overwrite with
    | some _, false =>
      { fs := ⟨fsd.dirs, upd fsd.files ip (some (.infoJson info))⟩
        events := [.mkdir pd, .writeInfo ip info]
        created := [out]
        aborted := false }
    | some _, true =>
      transcodeFrom ⟨fsd.dirs, upd fsd.files out none⟩ [.mkdir pd, .removeFile out]
    | none, _ =>
      transcodeFrom fsd [.mkdir pd]

/-- Result of the whole materialization loop. -/
structure LoopOut where
  fs : FS
  events : List Event
  created : List PyStr
  failed : Option Nat

/-- The materialization loop of split_video over the listed 0-based
segment indices, aborting on the first failed transcode and reporting the
1-based index of the failing part. -/
def segLoop (cfg : SVConfig) (fs : FS) : List Nat → LoopOut
  | [] => { fs := fs, events := [], created := [], failed := none }
  | i :: rest =>
    let st := segStep cfg fs i
    if st.aborted then
      { fs := st.fs, events := st.events, created := st.created, failed := some (i + 1) }
    else
      let lo := segLoop cfg st.fs rest
      { fs := lo.fs, events := st.events ++ lo.events,
        created := st.created ++ lo.created, failed := lo.failed }

/-- ensure_dir (source lines 65 and 66): os.makedirs with exist_ok. -/
def ensureDir (fs : FS) (p : PyStr) : FS :=
  { fs with dirs := upd fs.dirs p true }

/-- Outcome of a call to split_video: final filesystem, events in
program order, the 1-based failing part when the run aborted, and the
returned summary when it completed. -/
structure SplitResult where
  fs : FS
  events : List Event
  failed : Option Nat
  summary : Option Summary

/-- split_video (source lines 69 to 150): floor the probed duration,
compute the part count, resolve and create the output root, run the
materialization loop, and return the summary dictionary. -/
def split_video (input_path : PyStr) (max_part_seconds : Nat) (output_root : Option PyStr)
    (overwrite dry_run : Bool) (probe : ℚ) (abspath : PyStr → PyStr)
    (ffmpegOk : Nat → Bool) (fs0 : FS) : SplitResult :=
  -- probe is a media duration reported by ffprobe, hence non-negative,
  -- so taking toNat of its floor matches the Python int
  let total := (total_seconds_int probe).toNat
  let n := numParts total max_part_seconds
  let root := resolveRoot input_path output_root
  let cfg : SVConfig :=
    ⟨input_path, max_part_seconds, total, root, overwrite, dry_run, abspath, ffmpegOk⟩
  let fs1 := ensureDir fs0 root
  let lo := segLoop cfg fs1 (List.range n)
  { fs := lo.fs
    events := .mkdir root :: lo.events
    failed := lo.failed
    summary :=
      match lo.failed with
      | some _ => none
      | none => some ⟨total, max_part_seconds, n, abspath root, lo.created⟩ }

/-- Outcome of main (source lines 153 to 185): the three early exits and
the completed call into split_video. -/
inductive MainOutcome where
  | missingInput
  | badDuration (e : ParseError)
  | nonPositiveMax
  | ran (r : SplitResult)

/-- The main entry point (source lines 153 to 185): check the input path, parse the
maximum duration, reject a non-positive maximum, then call split_video. -/
def mainEntry (input_exists : Bool) (maxArg : String) (input_path : PyStr)
    (output_root : Option PyStr) (overwrite dry_run : Bool) (probe : ℚ)
    (abspath : PyStr → PyStr) (ffmpegOk : Nat → Bool) (fs0 : FS) : MainOutcome :=
  if !input_exists then .missingInput
  else
    match parse_duration_to_seconds maxArg with
    | .error e => .badDuration e
    | .ok v =>
      if v ≤ 0 then .nonPositiveMax
      else .ran (split_video input_path v.toNat output_root overwrite dry_run
        probe abspath ffmpegOk fs0)

/-- The ten ASCII digit characters, used to quantify over digit strings
in statements about the suffix grammars. -/
def digitChars : List Char := ['0', '1', '2', '3', '4', '5', '6', '7', '8', '9']

/-! ## Basic facts about the decimal formatting helpers -/

theorem toDecimalCore_ne_nil (fuel n : Nat) (h : n < fuel) : toDecimalCore fuel n ≠ [] := by
  cases fuel with
  | zero => omega
  | succ fuel =>
    unfold toDecimalCore
    split <;> simp

theorem toDecimal_ne_nil (n : Nat) : toDecimal n ≠ [] :=
  toDecimalCore_ne_nil (n + 1) n (by omega)

theorem digitChar_sub48 (n : Nat) (h : n < 10) : (digitChar n).toNat - 48 = n := by
  interval_cases n <;> rfl

theorem digitChar_isDigit (n : Nat) : (digitChar n).isDigit = true := by
  unfold digitChar
  split <;> rfl

theorem digitsVal_concat (l : List Char) (c : Char) :
    digitsVal (l ++ [c]) = 10 * digitsVal l + (c.toNat - 48) := by
  unfold digitsVal
  rw [List.foldl_append]
  rfl

theorem digitsVal_toDecimalCore (fuel n : Nat) (h : n < fuel) :
    digitsVal (toDecimalCore fuel n) = n := by
  induction fuel generalizing n with
  | zero => omega
  | succ fuel ih =>
    unfold toDecimalCore
    split
    · rename_i hn
      show digitsVal [digitChar n] = n
      unfold digitsVal
      simp [digitChar_sub48 n hn]
    · rename_i hn
      have hdiv : n / 10 < n := Nat.div_lt_self (by omega) (by omega)
      rw [digitsVal_concat, ih (n / 10) (by omega),
        digitChar_sub48 (n % 10) (Nat.mod_lt _ (by omega))]
      omega

theorem digitsVal_toDecimal (n : Nat) : digitsVal (toDecimal n) = n :=
  digitsVal_toDecimalCore (n + 1) n (by omega)

theorem digitsVal_zeros (k : Nat) (l : List Char) :
    digitsVal (List.replicate k '0' ++ l) = digitsVal l := by
  induction k with
  | zero => rfl
  | succ k ih =>
    rw [List.replicate_succ, List.cons_append]
    show digitsVal (List.replicate k '0' ++ l) = digitsVal l
    exact ih

theorem digitsVal_pad3 (n : Nat) : digitsVal (pad3 n) = n := by
  unfold pad3
  rw [digitsVal_zeros, digitsVal_toDecimal]

theorem pad3_injective {a b : Nat} (h : pad3 a = pad3 b) : a = b := by
  have := congrArg digitsVal h
  rwa [digitsVal_pad3, digitsVal_pad3] at this

theorem toDecimalCore_all_digit (fuel n : Nat) :
    ∀ c ∈ toDecimalCore fuel n, c.isDigit = true := by
  induction fuel generalizing n with
  | zero => intro c hc; simp [toDecimalCore] at hc
  | succ fuel ih =>
    intro c hc
    unfold toDecimalCore at hc
    split at hc
    · simp at hc
      subst hc
      exact digitChar_isDigit n
    · rw [List.mem_append] at hc
      rcases hc with hc | hc
      · exact ih (n / 10) c hc
      · simp at hc
        subst hc
        exact digitChar_isDigit _

theorem toDecimal_all_digit (n : Nat) : ∀ c ∈ toDecimal n, c.isDigit = true :=
  toDecimalCore_all_digit (n + 1) n

theorem pad3_all_digit (n : Nat) : ∀ c ∈ pad3 n, c.isDigit = true := by
  intro c hc
  unfold pad3 at hc
  rw [List.mem_append] at hc
  rcases hc with hc | hc
  · rw [List.eq_of_mem_replicate hc]
    rfl
  · exact toDecimal_all_digit n c hc

theorem isDigit_ne_slash {c : Char} (h : c.isDigit = true) : c ≠ '/' := by
  intro hc
  subst hc
  exact absurd h (by decide)

theorem pad3_length (n : Nat) : 3 ≤ (pad3 n).length := by
  unfold pad3
  rw [List.length_append, List.length_replicate]
  omega

theorem pad3_ne_nil (n : Nat) : pad3 n ≠ [] := by
  intro h
  have := pad3_length n
  rw [h] at this
  simp at this

/-! ## Facts about the derived output paths -/

theorem partName_eq (n : Nat) :
    partName n = 'p' :: 'a' :: 'r' :: 't' :: '_' :: pad3 n := rfl

theorem partName_ne_nil (n : Nat) : partName n ≠ [] := by
  rw [partName_eq]
  simp

theorem partName_head? (n : Nat) : (partName n).head? = some 'p' := by
  rw [partName_eq]
  rfl

theorem partName_no_slash (n : Nat) : ∀ c ∈ partName n, c ≠ '/' := by
  intro c hc
  rw [partName_eq] at hc
  simp only [List.mem_cons] at hc
  rcases hc with h | h | h | h | h | h
  · subst h; decide
  · subst h; decide
  · subst h; decide
  · subst h; decide
  · subst h; decide
  · exact isDigit_ne_slash (pad3_all_digit n c h)

theorem partName_injective {n₁ n₂ : Nat} (h : partName n₁ = partName n₂) : n₁ = n₂ := by
  rw [partName_eq, partName_eq] at h
  injection h with _ h
  injection h with _ h
  injection h with _ h
  injection h with _ h
  injection h with _ h
  exact pad3_injective h

theorem partName_length (n : Nat) : 8 ≤ (partName n).length := by
  rw [partName_eq]
  simp only [List.length_cons]
  have := pad3_length n
  omega

theorem getLast?_all {l : List Char} {P : Char → Prop} (hne : l ≠ [])
    (hall : ∀ c ∈ l, P c) : ∃ c, l.getLast? = some c ∧ P c := by
  rw [List.getLast?_eq_head?_reverse]
  cases hrev : l.reverse with
  | nil => exact absurd (by simpa using hrev) hne
  | cons a t =>
    refine ⟨a, rfl, hall a ?_⟩
    rw [← List.mem_reverse, hrev]
    simp

theorem pathJoinL_rel (r b : PyStr) (hb : b.head? ≠ some '/') :
    pathJoinL r b = rootPrefix r ++ b := by
  unfold pathJoinL rootPrefix
  rw [if_neg hb]
  split
  · rfl
  · simp

theorem partDir_eq (root : PyStr) (n : Nat) :
    partDir root n = rootPrefix root ++ partName n := by
  unfold partDir
  exact pathJoinL_rel _ _ (by rw [partName_head?]; simp)

theorem partDir_ne_nil (root : PyStr) (n : Nat) : partDir root n ≠ [] := by
  rw [partDir_eq]
  simp [partName_ne_nil n]

theorem partDir_getLast? (root : PyStr) (n : Nat) :
    ¬ (partDir root n).getLast? = some '/' := by
  rw [partDir_eq, List.getLast?_append_of_ne_nil _ (partName_ne_nil n)]
  obtain ⟨c, hc, hd⟩ := getLast?_all (partName_ne_nil n) (partName_no_slash n)
  rw [hc]
  intro h
  injection h with h
  exact hd h

theorem joinPartDir_eq (root : PyStr) (n : Nat) (b : PyStr) (hb : b.head? ≠ some '/') :
    pathJoinL (partDir root n) b = rootPrefix root ++ (partName n ++ '/' :: b) := by
  unfold pathJoinL
  rw [if_neg hb, if_neg (by
    push_neg
    exact ⟨partDir_ne_nil root n, partDir_getLast? root n⟩)]
  rw [partDir_eq, List.append_assoc]

theorem outFile_eq (root : PyStr) (n : Nat) :
    outFile root n = rootPrefix root ++ (partName n ++ '/' :: (partName n ++ ".mp4".data)) := by
  unfold outFile
  refine joinPartDir_eq root n _ ?_
  rw [partName_eq]
  simp

theorem infoPath_eq (root : PyStr) (n : Nat) :
    infoPath root n = rootPrefix root ++ (partName n ++ '/' :: "info.json".data) := by
  unfold infoPath
  exact joinPartDir_eq root n _ (by simp)

theorem noSlash_sep_inj :
    ∀ (a₁ : List Char) {a₂ b₁ b₂ : List Char}, (∀ c ∈ a₁, c ≠ '/') →
      (∀ c ∈ a₂, c ≠ '/') → a₁ ++ '/' :: b₁ = a₂ ++ '/' :: b₂ → a₁ = a₂ ∧ b₁ = b₂ := by
  intro a₁
  induction a₁ with
  | nil =>
    intro a₂ b₁ b₂ _ h₂ heq
    cases a₂ with
    | nil =>
      injection heq with _ h
      exact ⟨rfl, h⟩
    | cons d u =>
      rw [List.nil_append, List.cons_append] at heq
      injection heq with hd _
      exact absurd hd.symm (h₂ d (by simp))
  | cons c t ih =>
    intro a₂ b₁ b₂ h₁ h₂ heq
    cases a₂ with
    | nil =>
      rw [List.nil_append, List.cons_append] at heq
      injection heq with hd _
      exact absurd hd (h₁ c (by simp))
    | cons d u =>
      rw [List.cons_append, List.cons_append] at heq
      injection heq with hd ht
      obtain ⟨hau, hb⟩ := ih (fun x hx => h₁ x (by simp [hx])) (fun x hx => h₂ x (by simp [hx])) ht
      exact ⟨by rw [hd, hau], hb⟩

theorem outFile_injective (root : PyStr) {n₁ n₂ : Nat}
    (h : outFile root n₁ = outFile root n₂) : n₁ = n₂ := by
  rw [outFile_eq, outFile_eq] at h
  have h' := List.append_cancel_left h
  obtain ⟨hn, _⟩ := noSlash_sep_inj _ (partName_no_slash n₁) (partName_no_slash n₂) h'
  exact partName_injective hn

theorem infoPath_injective (root : PyStr) {n₁ n₂ : Nat}
    (h : infoPath root n₁ = infoPath root n₂) : n₁ = n₂ := by
  rw [infoPath_eq, infoPath_eq] at h
  have h' := List.append_cancel_left h
  obtain ⟨hn, _⟩ := noSlash_sep_inj _ (partName_no_slash n₁) (partName_no_slash n₂) h'
  exact partName_injective hn

theorem outFile_ne_infoPath (root : PyStr) (n₁ n₂ : Nat) :
    outFile root n₁ ≠ infoPath root n₂ := by
  intro h
  rw [outFile_eq, infoPath_eq] at h
  have h' := List.append_cancel_left h
  obtain ⟨_, hb⟩ := noSlash_sep_inj _ (partName_no_slash n₁) (partName_no_slash n₂) h'
  have hlen := congrArg List.length hb
  rw [List.length_append] at hlen
  have := partName_length n₁
  simp at hlen
  omega

/-! ## Helpers for reasoning about the duration parser -/

theorem mem_digitChars_isDigit {c : Char} (h : c ∈ digitChars) : c.isDigit = true := by
  fin_cases h <;> decide

theorem mem_digitChars_toLower {c : Char} (h : c ∈ digitChars) : c.toLower = c := by
  fin_cases h <;> decide

theorem mem_digitChars_not_space {c : Char} (h : c ∈ digitChars) : isPySpace c = false := by
  fin_cases h <;> decide

theorem space_beq_digit {c : Char} (h : c ∈ digitChars) : (' ' == c) = false := by
  fin_cases h <;> decide

theorem stripL_eq_self {l : PyStr} {a b : Char} (ha : l.head? = some a)
    (hb : l.getLast? = some b) (hA : isPySpace a = false) (hB : isPySpace b = false) :
    stripL l = l := by
  unfold stripL
  cases l with
  | nil => simp at ha
  | cons c t =>
    rw [List.head?_cons] at ha
    injection ha with ha
    subst ha
    rw [List.dropWhile_cons, if_neg (by simp [hA])]
    cases hrev : (c :: t).reverse with
    | nil => exact absurd hrev (by simp)
    | cons x u =>
      have hx : x = b := by
        rw [List.getLast?_eq_head?_reverse, hrev, List.head?_cons] at hb
        injection hb
      subst hx
      rw [List.dropWhile_cons, if_neg (by simp [hB]), ← hrev, List.reverse_reverse]

theorem lowerL_digits {d : PyStr} (hd : ∀ c ∈ d, c ∈ digitChars) : lowerL d = d := by
  unfold lowerL
  induction d with
  | nil => rfl
  | cons c t ih =>
    rw [List.map_cons, mem_digitChars_toLower (hd c (by simp)),
      ih (fun x hx => hd x (by simp [hx]))]

theorem contains_eq_false_of {l : PyStr} {x : Char} (h : ∀ c ∈ l, ¬ c = x) :
    l.contains x = false := by
  induction l with
  | nil => rfl
  | cons c t ih =>
    rw [List.contains_cons]
    have h1 : (x == c) = false := by
      rw [beq_eq_false_iff_ne]
      exact fun hc => h c (by simp) hc.symm
    rw [h1, Bool.false_or]
    exact ih (fun y hy => h y (by simp [hy]))

theorem norm_digits_append {d : PyStr} (x : PyStr) (hne : d ≠ [])
    (hd : ∀ c ∈ d, c ∈ digitChars) (hx : x ≠ [])
    (hxlast : ∀ b ∈ x.getLast? , isPySpace b = false) (hxlow : lowerL x = x) :
    lowerL (stripL (d ++ x)) = d ++ x := by
  obtain ⟨c, t, rfl⟩ := List.exists_cons_of_ne_nil hne
  obtain ⟨b, hb, hB⟩ : ∃ b, x.getLast? = some b ∧ isPySpace b = false := by
    cases hxl : x.getLast? with
    | none =>
      rw [List.getLast?_eq_head?_reverse, List.head?_eq_none_iff,
        List.reverse_eq_nil_iff] at hxl
      exact absurd hxl hx
    | some b => exact ⟨b, rfl, hxlast b (by rw [hxl]; rfl)⟩
  rw [stripL_eq_self (a := c) (b := b) (by simp)
    (by rw [List.getLast?_append_of_ne_nil _ hx]; exact hb)
    (mem_digitChars_not_space (hd c (by simp))) hB]
  rw [show lowerL ((c :: t) ++ x) = lowerL (c :: t) ++ lowerL x from List.map_append _ _ _,
    lowerL_digits hd, hxlow]

theorem digits_append_colonfree {d : PyStr} (x : PyStr)
    (hd : ∀ c ∈ d, c ∈ digitChars) (hxc : ∀ c ∈ x, ¬ c = ':') :
    (d ++ x).contains ':' = false := by
  refine contains_eq_false_of ?_
  intro y hy
  rw [List.mem_append] at hy
  rcases hy with hy | hy
  · have := hd y hy
    fin_cases this <;> decide
  · exact hxc y hy

theorem filter_digits_append {d : PyStr} (x : PyStr)
    (hd : ∀ c ∈ d, c ∈ digitChars) (hx : List.filter Char.isDigit x = []) :
    List.filter Char.isDigit (d ++ x) = d := by
  rw [List.filter_append,
    List.filter_eq_self.mpr (fun a ha => mem_digitChars_isDigit (hd a ha)), hx,
    List.append_nil]

theorem rev_cons_of_ne_nil {d : PyStr} (hne : d ≠ []) (hd : ∀ c ∈ d, c ∈ digitChars) :
    ∃ cl u, d.reverse = cl :: u ∧ cl ∈ digitChars := by
  cases hr : d.reverse with
  | nil =>
    rw [List.reverse_eq_nil_iff] at hr
    exact absurd hr hne
  | cons a b =>
    exact ⟨a, b, rfl, hd a (by rw [← List.mem_reverse, hr]; simp)⟩

theorem parse_digits_m (d : PyStr) (hne : d ≠ []) (hd : ∀ c ∈ d, c ∈ digitChars) :
    parse_duration_to_seconds (String.mk (d ++ "m".data)) = .ok ((digitsVal d : Int) * 60) := by
  have hnorm := norm_digits_append "m".data hne hd (by decide) (by decide) (by decide)
  show parseNorm (lowerL (stripL (d ++ "m".data))) = _
  rw [hnorm]
  unfold parseNorm
  rw [digits_append_colonfree "m".data hd (by decide), if_neg (by simp)]
  obtain ⟨cl, u, hrd, hcl⟩ := rev_cons_of_ne_nil hne hd
  have hfilter := filter_digits_append "m".data hd (by decide)
  simp only [endswithL, List.reverse_append, hrd]
  simp [List.isPrefixOf, space_beq_digit hcl, hfilter, intOfDigits, hne, Except.map]

theorem parse_digits_space_min (d : PyStr) (hne : d ≠ []) (hd : ∀ c ∈ d, c ∈ digitChars) :
    parse_duration_to_seconds (String.mk (d ++ " min".data)) = .ok ((digitsVal d : Int) * 60) := by
  have hnorm := norm_digits_append " min".data hne hd (by decide) (by decide) (by decide)
  show parseNorm (lowerL (stripL (d ++ " min".data))) = _
  rw [hnorm]
  unfold parseNorm
  rw [digits_append_colonfree " min".data hd (by decide), if_neg (by simp)]
  obtain ⟨cl, u, hrd, hcl⟩ := rev_cons_of_ne_nil hne hd
  have hfilter := filter_digits_append " min".data hd (by decide)
  simp only [endswithL, List.reverse_append, hrd]
  simp [List.isPrefixOf, space_beq_digit hcl, hfilter, intOfDigits, hne, Except.map]

theorem parse_digits_h (d : PyStr) (hne : d ≠ []) (hd : ∀ c ∈ d, c ∈ digitChars) :
    parse_duration_to_seconds (String.mk (d ++ "h".data)) = .ok ((digitsVal d : Int) * 3600) := by
  have hnorm := norm_digits_append "h".data hne hd (by decide) (by decide) (by decide)
  show parseNorm (lowerL (stripL (d ++ "h".data))) = _
  rw [hnorm]
  unfold parseNorm
  rw [digits_append_colonfree "h".data hd (by decide), if_neg (by simp)]
  obtain ⟨cl, u, hrd, hcl⟩ := rev_cons_of_ne_nil hne hd
  have hfilter := filter_digits_append "h".data hd (by decide)
  simp only [endswithL, List.reverse_append, hrd]
  simp [List.isPrefixOf, space_beq_digit hcl, hfilter, intOfDigits, hne, Except.map]

theorem parse_digits_space_hr (d : PyStr) (hne : d ≠ []) (hd : ∀ c ∈ d, c ∈ digitChars) :
    parse_duration_to_seconds (String.mk (d ++ " hr".data)) = .ok ((digitsVal d : Int) * 3600) := by
  have hnorm := norm_digits_append " hr".data hne hd (by decide) (by decide) (by decide)
  show parseNorm (lowerL (stripL (d ++ " hr".data))) = _
  rw [hnorm]
  unfold parseNorm
  rw [digits_append_colonfree " hr".data hd (by decide), if_neg (by simp)]
  obtain ⟨cl, u, hrd, hcl⟩ := rev_cons_of_ne_nil hne hd
  have hfilter := filter_digits_append " hr".data hd (by decide)
  simp only [endswithL, List.reverse_append, hrd]
  simp [List.isPrefixOf, space_beq_digit hcl, hfilter, intOfDigits, hne, Except.map]

theorem parse_digits_space_hour (d : PyStr) (hne : d ≠ []) (hd : ∀ c ∈ d, c ∈ digitChars) :
    parse_duration_to_seconds (String.mk (d ++ " hour".data)) = .ok ((digitsVal d : Int) * 3600) := by
  have hnorm := norm_digits_append " hour".data hne hd (by decide) (by decide) (by decide)
  show parseNorm (lowerL (stripL (d ++ " hour".data))) = _
  rw [hnorm]
  unfold parseNorm
  rw [digits_append_colonfree " hour".data hd (by decide), if_neg (by simp)]
  obtain ⟨cl, u, hrd, hcl⟩ := rev_cons_of_ne_nil hne hd
  have hfilter := filter_digits_append " hour".data hd (by decide)
  simp only [endswithL, List.reverse_append, hrd]
  simp [List.isPrefixOf, space_beq_digit hcl, hfilter, intOfDigits, hne, Except.map]

theorem parse_digits_min (d : PyStr) (hne : d ≠ []) (hd : ∀ c ∈ d, c ∈ digitChars) :
    parse_duration_to_seconds (String.mk (d ++ "min".data)) =
      .error (.unparseable (d ++ "min".data)) := by
  have hnorm := norm_digits_append "min".data hne hd (by decide) (by decide) (by decide)
  show parseNorm (lowerL (stripL (d ++ "min".data))) = _
  rw [hnorm]
  unfold parseNorm
  rw [digits_append_colonfree "min".data hd (by decide), if_neg (by simp)]
  obtain ⟨cl, u, hrd, hcl⟩ := rev_cons_of_ne_nil hne hd
  simp only [endswithL, List.reverse_append, hrd]
  simp [List.isPrefixOf, space_beq_digit hcl, List.all_append]

theorem parse_digits_hr (d : PyStr) (hne : d ≠ []) (hd : ∀ c ∈ d, c ∈ digitChars) :
    parse_duration_to_seconds (String.mk (d ++ "hr".data)) =
      .error (.unparseable (d ++ "hr".data)) := by
  have hnorm := norm_digits_append "hr".data hne hd (by decide) (by decide) (by decide)
  show parseNorm (lowerL (stripL (d ++ "hr".data))) = _
  rw [hnorm]
  unfold parseNorm
  rw [digits_append_colonfree "hr".data hd (by decide), if_neg (by simp)]
  obtain ⟨cl, u, hrd, hcl⟩ := rev_cons_of_ne_nil hne hd
  simp only [endswithL, List.reverse_append, hrd]
  simp [List.isPrefixOf, space_beq_digit hcl, List.all_append]

theorem parseNorm_colonfree_nonneg (t : PyStr) (hc : t.contains ':' = false) (v : Int)
    (hv : parseNorm t = .ok v) : 0 ≤ v := by
  unfold parseNorm intOfDigits at hv
  rw [hc, if_neg (by simp)] at hv
  split at hv
  · split at hv
    · exact absurd hv (by simp)
    · injection hv with hv
      omega
  · split at hv
    · split at hv
      · simp [Except.map] at hv
      · simp [Except.map] at hv
        omega
    · split at hv
      · split at hv
        · simp [Except.map] at hv
        · simp [Except.map] at hv
          omega
      · split at hv
        · injection hv with hv
          omega
        · exact absurd hv (by simp)

/-- Claim C9: parse_duration_to_seconds maps the concrete inputs as
follows: 01:30:00 to 5400, 30m to 1800, 2h to 7200, 5400 to 5400, and
90s to 90. -/
theorem claim_C9_duration_round_trips :
    parse_duration_to_seconds "01:30:00" = .ok 5400 ∧
    parse_duration_to_seconds "30m" = .ok 1800 ∧
    parse_duration_to_seconds "2h" = .ok 7200 ∧
    parse_duration_to_seconds "5400" = .ok 5400 ∧
    parse_duration_to_seconds "90s" = .ok 90 := by
  refine ⟨?_, ?_, ?_, ?_, ?_⟩ <;> decide

/-- Claim C3, counterexample: the colon grammar hands each component to
the integer conversion, which accepts a sign, so the expression 0:0:-5
is accepted and returns the negative value -5 instead of failing. -/
theorem claim_C3_counterexample :
    parse_duration_to_seconds "0:0:-5" = .ok (-5) ∧ ¬ (0 : Int) ≤ -5 := by
  refine ⟨?_, ?_⟩ <;> decide

/-- Claim C3, amended: for every input string without a colon,
parse_duration_to_seconds either fails or returns a non-negative number
of seconds; colon-separated inputs, however, pass their components
through signed integer conversion and can produce a negative result. -/
theorem claim_C3_amended_colonfree_nonneg (s : String)
    (hc : (lowerL (stripL s.data)).contains ':' = false) (v : Int)
    (hv : parse_duration_to_seconds s = .ok v) : 0 ≤ v :=
  parseNorm_colonfree_nonneg _ hc v hv

theorem claim_C3_witness :
    (lowerL (stripL "90s".data)).contains ':' = false ∧
    parse_duration_to_seconds "90s" = .ok 90 ∧ (0 : Int) ≤ 90 :=
  ⟨by decide, by decide, claim_C3_amended_colonfree_nonneg "90s" (by decide) 90 (by decide)⟩

/-- Claim C6, counterexample: the multi-letter unit words are only
recognized when preceded by a space, so 30min and 2hr do not parse to
1800 and 7200 as the claim states; both raise the final ValueError. -/
theorem claim_C6_counterexample :
    parse_duration_to_seconds "30min" = .error (.unparseable "30min".data) ∧
    parse_duration_to_seconds "2hr" = .error (.unparseable "2hr".data) := by
  refine ⟨?_, ?_⟩ <;> decide

/-- Claim C6, amended: after stripping and lowercasing, digits followed
by the bare letter m parse to digits times 60 and digits followed by the
bare letter h parse to digits times 3600; the word suffixes min, hr and
hour are recognized only when separated from the digits by a space
(case-insensitively, for example 30 MIN and 2 HR), while the unspaced
forms such as 30min and 2hr are rejected with an error. -/
theorem claim_C6_amended_unit_suffixes (d : PyStr) (hne : d ≠ [])
    (hd : ∀ c ∈ d, c ∈ digitChars) :
    parse_duration_to_seconds (String.mk (d ++ "m".data)) = .ok ((digitsVal d : Int) * 60) ∧
    parse_duration_to_seconds (String.mk (d ++ " min".data)) = .ok ((digitsVal d : Int) * 60) ∧
    parse_duration_to_seconds (String.mk (d ++ "h".data)) = .ok ((digitsVal d : Int) * 3600) ∧
    parse_duration_to_seconds (String.mk (d ++ " hr".data)) = .ok ((digitsVal d : Int) * 3600) ∧
    parse_duration_to_seconds (String.mk (d ++ " hour".data)) = .ok ((digitsVal d : Int) * 3600) ∧
    parse_duration_to_seconds (String.mk (d ++ "min".data)) =
      .error (.unparseable (d ++ "min".data)) ∧
    parse_duration_to_seconds (String.mk (d ++ "hr".data)) =
      .error (.unparseable (d ++ "hr".data)) ∧
    parse_duration_to_seconds "30 MIN" = .ok 1800 ∧
    parse_duration_to_seconds "2 HR" = .ok 7200 :=
  ⟨parse_digits_m d hne hd, parse_digits_space_min d hne hd, parse_digits_h d hne hd,
    parse_digits_space_hr d hne hd, parse_digits_space_hour d hne hd,
    parse_digits_min d hne hd, parse_digits_hr d hne hd, by decide, by decide⟩

theorem claim_C6_witness :
    ("30".data ≠ ([] : List Char)) ∧
    parse_duration_to_seconds (String.mk ("30".data ++ "m".data)) = .ok 1800 ∧
    parse_duration_to_seconds (String.mk ("30".data ++ " min".data)) = .ok 1800 ∧
    parse_duration_to_seconds (String.mk ("30".data ++ "min".data)) =
      .error (.unparseable ("30".data ++ "min".data)) := by
  have h := claim_C6_amended_unit_suffixes "30".data (by decide) (by decide)
  exact ⟨by decide, h.1, h.2.1, h.2.2.2.2.2.1⟩

/-- Claim C10: because the seconds-suffix check comes first, every
colon-free input whose normalized form ends in the letter s is parsed
under the seconds grammar (integer conversion of its digit characters),
so 2 hours and 2 hrs both return 2 seconds rather than 7200. -/
theorem claim_C10_seconds_suffix_precedence :
    (∀ s : String, (lowerL (stripL s.data)).contains ':' = false →
      endswithL (lowerL (stripL s.data)) "s".data = true →
      parse_duration_to_seconds s =
        intOfDigits ((lowerL (stripL s.data)).filter Char.isDigit)) ∧
    parse_duration_to_seconds "2 hours" = .ok 2 ∧
    parse_duration_to_seconds "2 hrs" = .ok 2 := by
  refine ⟨?_, by decide, by decide⟩
  intro s h1 h2
  show parseNorm (lowerL (stripL s.data)) = _
  unfold parseNorm
  rw [h1, if_neg (by simp), h2]
  simp

theorem claim_C10_witness :
    (lowerL (stripL "2 hours".data)).contains ':' = false ∧
    endswithL (lowerL (stripL "2 hours".data)) "s".data = true ∧
    parse_duration_to_seconds "2 hours" =
      intOfDigits ((lowerL (stripL "2 hours".data)).filter Char.isDigit) :=
  ⟨by decide, by decide,
    claim_C10_seconds_suffix_precedence.1 "2 hours" (by decide) (by decide)⟩

/-! ## The segmentation planner -/

theorem ite_min (m r : Nat) : (if m < r then m else r) = min m r := by
  split <;> omega

theorem segDuration_min (total m k : Nat) :
    segDuration total m k = min m (total - k * m) := by
  unfold segDuration segStart
  exact ite_min m (total - k * m)

theorem planSegments_length (total m : Nat) :
    (planSegments total m).length = numParts total m := by
  simp [planSegments]

theorem planSegments_get (total m k : Nat) (hk : k < (planSegments total m).length) :
    (planSegments total m).get ⟨k, hk⟩ =
      { index := k + 1, start_seconds := k * m,
        duration_seconds := min m (total - k * m),
        end_seconds := k * m + min m (total - k * m) } := by
  rw [List.get_eq_getElem]
  simp [planSegments, segStart, segDuration_min, Nat.mul_comm]

theorem numParts_eq_ceil (total m : Nat) (hm : 0 < m) :
    numParts total m = ⌈(total : ℚ) / (m : ℚ)⌉₊ := by
  have hmq : (0 : ℚ) < (m : ℚ) := by positivity
  rcases Nat.eq_zero_or_pos total with h0 | h0
  · subst h0
    unfold numParts
    rw [Nat.zero_add, Nat.div_eq_of_lt (by omega)]
    simp
  · obtain ⟨q, r, hr, ht⟩ : ∃ q r, r < m ∧ total = m * q + r :=
      ⟨total / m, total % m, Nat.mod_lt _ hm, (Nat.div_add_mod total m).symm⟩
    rcases Nat.eq_zero_or_pos r with hr0 | hr0
    · subst hr0
      have hq : 0 < q := by
        rcases Nat.eq_zero_or_pos q with h | h
        · subst h
          rw [Nat.mul_zero] at ht
          omega
        · exact h
      have hnp : numParts total m = q := by
        unfold numParts
        rw [show total + m - 1 = m * q + (m - 1) by omega, Nat.mul_add_div hm,
          Nat.div_eq_of_lt (by omega), Nat.add_zero]
      have hcast : ((total : ℕ) : ℚ) / (m : ℚ) = (q : ℚ) := by
        rw [ht]
        push_cast
        rw [add_zero, mul_comm, mul_div_assoc, div_self (ne_of_gt hmq), mul_one]
      rw [hnp, hcast, Nat.ceil_natCast]
    · have hnp : numParts total m = q + 1 := by
        unfold numParts
        rw [show total + m - 1 = m * (q + 1) + (r - 1) by rw [Nat.mul_succ]; omega,
          Nat.mul_add_div hm, Nat.div_eq_of_lt (by omega), Nat.add_zero]
      rw [hnp]
      symm
      rw [Nat.ceil_eq_iff (by omega)]
      have hrq : (0 : ℚ) < (r : ℚ) := by exact_mod_cast hr0
      have hrm : (r : ℚ) < (m : ℚ) := by exact_mod_cast hr
      constructor
      · rw [show (q + 1 - 1 : ℕ) = q from rfl, lt_div_iff₀ hmq, ht]
        push_cast
        linarith [mul_comm (q : ℚ) (m : ℚ)]
      · rw [div_le_iff₀ hmq, ht]
        push_cast
        linarith [mul_comm (q : ℚ) (m : ℚ)]

theorem cover_unique (total m : Nat) (hm : 0 < m) (t : Nat) (ht : t < total) :
    ∃! k, k < numParts total m ∧ k * m ≤ t ∧ t < k * m + min m (total - k * m) := by
  have h2 : t / m * m ≤ t := Nat.div_mul_le_self t m
  have h3 : t < (t / m + 1) * m := (Nat.div_lt_iff_lt_mul hm).mp (Nat.lt_succ_self _)
  rw [Nat.succ_mul] at h3
  refine ⟨t / m, ⟨?_, h2, ?_⟩, ?_⟩
  · have ha : t / m ≤ (total - 1) / m := Nat.div_le_div_right (by omega)
    have hb : numParts total m = (total - 1) / m + 1 := by
      unfold numParts
      rw [show total + m - 1 = (total - 1) + m by omega, Nat.add_div_right _ hm]
    omega
  · omega
  · intro y hy
    obtain ⟨hy1, hy2, hy3⟩ := hy
    have hy4 : t < y * m + m := by
      have := Nat.min_le_left m (total - y * m)
      omega
    exact (Nat.div_eq_of_lt_le hy2 (by rw [Nat.succ_mul]; omega)).symm

/-- Claim C1: for every total_seconds and every positive
max_segment_seconds, the plan is an ordered sequence of descriptors with
contiguous 1-based indices, segment k + 1 starts at k times the maximum
and has length min of the maximum and what remains, the segments cover
the interval from 0 to total_seconds with no gaps and no overlaps, the
segment count is the ceiling of total over the maximum (0 for an empty
source), and the 125 over 60 example yields exactly the three stated
descriptors. -/
theorem claim_C1_planner_partition (total maxPart : Nat) (hmax : 0 < maxPart) :
    (planSegments total maxPart).length = ⌈(total : ℚ) / (maxPart : ℚ)⌉₊ ∧
    (∀ k, ∀ hk : k < (planSegments total maxPart).length,
      (planSegments total maxPart).get ⟨k, hk⟩ =
        { index := k + 1, start_seconds := k * maxPart,
          duration_seconds := min maxPart (total - k * maxPart),
          end_seconds := k * maxPart + min maxPart (total - k * maxPart) }) ∧
    (∀ t, t < total → ∃! k, ∃ hk : k < (planSegments total maxPart).length,
      ((planSegments total maxPart).get ⟨k, hk⟩).start_seconds ≤ t ∧
        t < ((planSegments total maxPart).get ⟨k, hk⟩).end_seconds) ∧
    (total = 0 → planSegments total maxPart = []) ∧
    planSegments 125 60 =
      [{ index := 1, start_seconds := 0, duration_seconds := 60, end_seconds := 60 },
       { index := 2, start_seconds := 60, duration_seconds := 60, end_seconds := 120 },
       { index := 3, start_seconds := 120, duration_seconds := 5, end_seconds := 125 }] := by
  refine ⟨by rw [planSegments_length, numParts_eq_ceil total maxPart hmax],
    fun k hk => planSegments_get total maxPart k hk, ?_, ?_, by decide⟩
  · intro t ht
    obtain ⟨k₀, ⟨hkn, hs, he⟩, huniq⟩ := cover_unique total maxPart hmax t ht
    have hklen : k₀ < (planSegments total maxPart).length := by
      rw [planSegments_length]
      exact hkn
    refine ⟨k₀, ⟨hklen, ?_, ?_⟩, ?_⟩
    · rw [planSegments_get]
      exact hs
    · rw [planSegments_get]
      exact he
    · intro y hy
      obtain ⟨hyk, hys, hye⟩ := hy
      rw [planSegments_get] at hys hye
      refine huniq y ⟨?_, hys, hye⟩
      rw [planSegments_length] at hyk
      exact hyk
  · intro h0
    subst h0
    have : numParts 0 maxPart = 0 := by
      unfold numParts
      rw [Nat.zero_add, Nat.div_eq_of_lt (by omega)]
    simp [planSegments, this]

theorem claim_C1_witness :
    (planSegments 125 60).length = ⌈(125 : ℚ) / (60 : ℚ)⌉₊ ∧
    (0 = 0 → planSegments 0 60 = []) := by
  constructor
  · have h := (claim_C1_planner_partition 125 60 (by decide)).1
    exact_mod_cast h
  · exact (claim_C1_planner_partition 0 60 (by decide)).2.2.2.1

/-- Claim C8: the probed total duration passes through floor truncation
before planning, so the value used is the greatest integer below the
probe result (the sub-second remainder is dropped and never rounded up),
and a 119.9 second source with a 120 second maximum plans exactly one
segment of 119 seconds. -/
theorem claim_C8_floor_truncation :
    (∀ q : ℚ, (total_seconds_int q : ℚ) ≤ q ∧
      ∀ z : Int, (z : ℚ) ≤ q → z ≤ total_seconds_int q) ∧
    total_seconds_int (1199/10 : ℚ) = 119 ∧
    planSegments ((total_seconds_int (1199/10 : ℚ)).toNat) 120 =
      [{ index := 1, start_seconds := 0, duration_seconds := 119, end_seconds := 119 }] := by
  have hfloor : total_seconds_int (1199/10 : ℚ) = 119 := by
    unfold total_seconds_int
    norm_num [Int.floor_eq_iff]
  refine ⟨?_, hfloor, ?_⟩
  · intro q
    exact ⟨Int.floor_le q, fun z hz => Int.le_floor.mpr hz⟩
  · rw [hfloor]
    decide

theorem claim_C8_witness :
    ((total_seconds_int (1199/10 : ℚ) : ℚ) ≤ (1199/10 : ℚ)) ∧
    (119 : Int) ≤ total_seconds_int (1199/10 : ℚ) :=
  ⟨(claim_C8_floor_truncation.1 (1199/10 : ℚ)).1,
    (claim_C8_floor_truncation.1 (1199/10 : ℚ)).2 119 (by norm_num)⟩

theorem segStep_dry (cfg : SVConfig) (fs : FS) (i : Nat) (h : cfg.dry_run = true) :
    segStep cfg fs i =
      { fs := ⟨upd fs.dirs (partDir cfg.root (i + 1)) true, fs.files⟩,
        events := [.mkdir (partDir cfg.root (i + 1))], created := [], aborted := false } := by
  simp [segStep, h]

theorem segStep_skip (cfg : SVConfig) (fs : FS) (i : Nat) (c : FileData)
    (hdry : cfg.dry_run = false) (hov : cfg.overwrite = false)
    (hex : fs.files (outFile cfg.root (i + 1)) = some c) :
    segStep cfg fs i =
      { fs := ⟨upd fs.dirs (partDir cfg.root (i + 1)) true,
          upd fs.files (infoPath cfg.root (i + 1)) (some (.infoJson (mkInfo cfg i)))⟩,
        events := [.mkdir (partDir cfg.root (i + 1)),
          .writeInfo (infoPath cfg.root (i + 1)) (mkInfo cfg i)],
        created := [outFile cfg.root (i + 1)], aborted := false } := by
  simp [segStep, hdry, hov, hex]

theorem segStep_create (cfg : SVConfig) (fs : FS) (i : Nat)
    (hdry : cfg.dry_run = false)
    (hex : fs.files (outFile cfg.root (i + 1)) = none)
    (hok : cfg.ffmpegOk i = true) :
    segStep cfg fs i =
      { fs := ⟨upd fs.dirs (partDir cfg.root (i + 1)) true,
          upd (upd fs.files (outFile cfg.root (i + 1))
              (some (.media cfg.input_path (segStart cfg.max_part_seconds i)
                (segDuration cfg.total_seconds cfg.max_part_seconds i))))
            (infoPath cfg.root (i + 1)) (some (.infoJson (mkInfo cfg i)))⟩,
        events := [.mkdir (partDir cfg.root (i + 1)),
          .ffmpeg (segStart cfg.max_part_seconds i) cfg.input_path
            (segDuration cfg.total_seconds cfg.max_part_seconds i) (outFile cfg.root (i + 1)),
          .writeInfo (infoPath cfg.root (i + 1)) (mkInfo cfg i)],
        created := [outFile cfg.root (i + 1)], aborted := false } := by
  simp [segStep, hdry, hex, hok]

theorem segStep_fail (cfg : SVConfig) (fs : FS) (i : Nat)
    (hdry : cfg.dry_run = false)
    (hex : fs.files (outFile cfg.root (i + 1)) = none)
    (hbad : cfg.ffmpegOk i = false) :
    segStep cfg fs i =
      { fs := ⟨upd fs.dirs (partDir cfg.root (i + 1)) true, fs.files⟩,
        events := [.mkdir (partDir cfg.root (i + 1)),
          .ffmpeg (segStart cfg.max_part_seconds i) cfg.input_path
            (segDuration cfg.total_seconds cfg.max_part_seconds i) (outFile cfg.root (i + 1))],
        created := [], aborted := true } := by
  simp [segStep, hdry, hex, hbad]

theorem segStep_overwrite_create (cfg : SVConfig) (fs : FS) (i : Nat) (c : FileData)
    (hdry : cfg.dry_run = false) (hov : cfg.overwrite = true)
    (hex : fs.files (outFile cfg.root (i + 1)) = some c)
    (hok : cfg.ffmpegOk i = true) :
    segStep cfg fs i =
      { fs := ⟨upd fs.dirs (partDir cfg.root (i + 1)) true,
          upd (upd (upd fs.files (outFile cfg.root (i + 1)) none) (outFile cfg.root (i + 1))
              (some (.media cfg.input_path (segStart cfg.max_part_seconds i)
                (segDuration cfg.total_seconds cfg.max_part_seconds i))))
            (infoPath cfg.root (i + 1)) (some (.infoJson (mkInfo cfg i)))⟩,
        events := [.mkdir (partDir cfg.root (i + 1)),
          .removeFile (outFile cfg.root (i + 1)),
          .ffmpeg (segStart cfg.max_part_seconds i) cfg.input_path
            (segDuration cfg.total_seconds cfg.max_part_seconds i) (outFile cfg.root (i + 1)),
          .writeInfo (infoPath cfg.root (i + 1)) (mkInfo cfg i)],
        created := [outFile cfg.root (i + 1)], aborted := false } := by
  simp [segStep, hdry, hov, hex, hok]

theorem segStep_overwrite_fail (cfg : SVConfig) (fs : FS) (i : Nat) (c : FileData)
    (hdry : cfg.dry_run = false) (hov : cfg.overwrite = true)
    (hex : fs.files (outFile cfg.root (i + 1)) = some c)
    (hbad : cfg.ffmpegOk i = false) :
    segStep cfg fs i =
      { fs := ⟨upd fs.dirs (partDir cfg.root (i + 1)) true,
          upd fs.files (outFile cfg.root (i + 1)) none⟩,
        events := [.mkdir (partDir cfg.root (i + 1)),
          .removeFile (outFile cfg.root (i + 1)),
          .ffmpeg (segStart cfg.max_part_seconds i) cfg.input_path
            (segDuration cfg.total_seconds cfg.max_part_seconds i) (outFile cfg.root (i + 1))],
        created := [], aborted := true } := by
  simp [segStep, hdry, hov, hex, hbad]

theorem segStep_files_frame (cfg : SVConfig) (fs : FS) (i : Nat) (p : PyStr)
    (hp1 : ¬ p = outFile cfg.root (i + 1)) (hp2 : ¬ p = infoPath cfg.root (i + 1)) :
    (segStep cfg fs i).fs.files p = fs.files p := by
  cases hdry : cfg.dry_run with
  | true => rw [segStep_dry cfg fs i hdry]
  | false =>
    cases hex : fs.files (outFile cfg.root (i + 1)) with
    | none =>
      cases hok : cfg.ffmpegOk i with
      | true => rw [segStep_create cfg fs i hdry hex hok]; simp [upd, hp1, hp2]
      | false => rw [segStep_fail cfg fs i hdry hex hok]
    | some c =>
      cases hov : cfg.overwrite with
      | false => rw [segStep_skip cfg fs i c hdry hov hex]; simp [upd, hp2]
      | true =>
        cases hok : cfg.ffmpegOk i with
        | true => rw [segStep_overwrite_create cfg fs i c hdry hov hex hok]; simp [upd, hp1, hp2]
        | false => rw [segStep_overwrite_fail cfg fs i c hdry hov hex hok]; simp [upd, hp1]

theorem segStep_events_sub (cfg : SVConfig) (fs : FS) (i : Nat) :
    ∀ e ∈ (segStep cfg fs i).events,
      e = .mkdir (partDir cfg.root (i + 1)) ∨
      e = .removeFile (outFile cfg.root (i + 1)) ∨
      (∃ s d, e = .ffmpeg s cfg.input_path d (outFile cfg.root (i + 1))) ∨
      (∃ rec, e = .writeInfo (infoPath cfg.root (i + 1)) rec) := by
  intro e he
  cases hdry : cfg.dry_run with
  | true =>
    rw [segStep_dry cfg fs i hdry] at he
    simp at he
    simp [he]
  | false =>
    cases hex : fs.files (outFile cfg.root (i + 1)) with
    | none =>
      cases hok : cfg.ffmpegOk i with
      | true =>
        rw [segStep_create cfg fs i hdry hex hok] at he
        simp at he
        rcases he with h | h | h <;> subst h <;> simp
      | false =>
        rw [segStep_fail cfg fs i hdry hex hok] at he
        simp at he
        rcases he with h | h <;> subst h <;> simp
    | some c =>
      cases hov : cfg.overwrite with
      | false =>
        rw [segStep_skip cfg fs i c hdry hov hex] at he
        simp at he
        rcases he with h | h <;> subst h <;> simp
      | true =>
        cases hok : cfg.ffmpegOk i with
        | true =>
          rw [segStep_overwrite_create cfg fs i c hdry hov hex hok] at he
          simp at he
          rcases he with h | h | h | h <;> subst h <;> simp
        | false =>
          rw [segStep_overwrite_fail cfg fs i c hdry hov hex hok] at he
          simp at he
          rcases he with h | h | h <;> subst h <;> simp

theorem segStep_not_aborted_created (cfg : SVConfig) (fs : FS) (i : Nat)
    (hdry : cfg.dry_run = false) (hna : (segStep cfg fs i).aborted = false) :
    (segStep cfg fs i).created = [outFile cfg.root (i + 1)] := by
  cases hex : fs.files (outFile cfg.root (i + 1)) with
  | none =>
    cases hok : cfg.ffmpegOk i with
    | true => rw [segStep_create cfg fs i hdry hex hok]
    | false => rw [segStep_fail cfg fs i hdry hex hok] at hna; simp at hna
  | some c =>
    cases hov : cfg.overwrite with
    | false => rw [segStep_skip cfg fs i c hdry hov hex]
    | true =>
      cases hok : cfg.ffmpegOk i with
      | true => rw [segStep_overwrite_create cfg fs i c hdry hov hex hok]
      | false => rw [segStep_overwrite_fail cfg fs i c hdry hov hex hok] at hna; simp at hna

theorem segLoop_cons (cfg : SVConfig) (fs : FS) (i : Nat) (rest : List Nat) :
    segLoop cfg fs (i :: rest) =
      if (segStep cfg fs i).aborted then
        { fs := (segStep cfg fs i).fs, events := (segStep cfg fs i).events,
          created := (segStep cfg fs i).created, failed := some (i + 1) }
      else
        { fs := (segLoop cfg (segStep cfg fs i).fs rest).fs,
          events := (segStep cfg fs i).events ++ (segLoop cfg (segStep cfg fs i).fs rest).events,
          created := (segStep cfg fs i).created ++ (segLoop cfg (segStep cfg fs i).fs rest).created,
          failed := (segLoop cfg (segStep cfg fs i).fs rest).failed } := rfl

theorem segLoop_files_frame (cfg : SVConfig) (idxs : List Nat) (fs : FS) (p : PyStr)
    (hp : ∀ i ∈ idxs, ¬ p = outFile cfg.root (i + 1) ∧ ¬ p = infoPath cfg.root (i + 1)) :
    (segLoop cfg fs idxs).fs.files p = fs.files p := by
  induction idxs generalizing fs with
  | nil => rfl
  | cons i rest ih =>
    rw [segLoop_cons]
    obtain ⟨hp1, hp2⟩ := hp i (by simp)
    cases hab : (segStep cfg fs i).aborted with
    | true => simp [segStep_files_frame cfg fs i p hp1 hp2]
    | false =>
      simp only [Bool.false_eq_true, if_false]
      rw [ih (segStep cfg fs i).fs (fun j hj => hp j (by simp [hj])),
        segStep_files_frame cfg fs i p hp1 hp2]

theorem segLoop_ffmpeg_events (cfg : SVConfig) (idxs : List Nat) (fs : FS) :
    ∀ s inp d o, Event.ffmpeg s inp d o ∈ (segLoop cfg fs idxs).events →
      ∃ i ∈ idxs, o = outFile cfg.root (i + 1) := by
  induction idxs generalizing fs with
  | nil => intro s inp d o h; simp [segLoop] at h
  | cons i rest ih =>
    intro s inp d o h
    rw [segLoop_cons] at h
    cases hab : (segStep cfg fs i).aborted with
    | true =>
      rw [hab] at h
      simp only [if_true] at h
      rcases segStep_events_sub cfg fs i _ h with h1 | h1 | h1 | h1
      · exact absurd h1 (by simp)
      · exact absurd h1 (by simp)
      · obtain ⟨s', d', h1⟩ := h1
        injection h1 with _ _ _ h1
        exact ⟨i, by simp, h1⟩
      · obtain ⟨rec, h1⟩ := h1
        exact absurd h1 (by simp)
    | false =>
      rw [hab] at h
      simp only [Bool.false_eq_true, if_false, List.mem_append] at h
      rcases h with h | h
      · rcases segStep_events_sub cfg fs i _ h with h1 | h1 | h1 | h1
        · exact absurd h1 (by simp)
        · exact absurd h1 (by simp)
        · obtain ⟨s', d', h1⟩ := h1
          injection h1 with _ _ _ h1
          exact ⟨i, by simp, h1⟩
        · obtain ⟨rec, h1⟩ := h1
          exact absurd h1 (by simp)
      · obtain ⟨j, hj, hjo⟩ := ih (segStep cfg fs i).fs s inp d o h
        exact ⟨j, by simp [hj], hjo⟩

theorem segLoop_writeInfo_events (cfg : SVConfig) (idxs : List Nat) (fs : FS) :
    ∀ p rec, Event.writeInfo p rec ∈ (segLoop cfg fs idxs).events →
      ∃ i ∈ idxs, p = infoPath cfg.root (i + 1) := by
  induction idxs generalizing fs with
  | nil => intro p rec h; simp [segLoop] at h
  | cons i rest ih =>
    intro p rec h
    rw [segLoop_cons] at h
    cases hab : (segStep cfg fs i).aborted with
    | true =>
      rw [hab] at h
      simp only [if_true] at h
      rcases segStep_events_sub cfg fs i _ h with h1 | h1 | h1 | h1
      · exact absurd h1 (by simp)
      · exact absurd h1 (by simp)
      · obtain ⟨s', d', h1⟩ := h1
        exact absurd h1 (by simp)
      · obtain ⟨rec', h1⟩ := h1
        injection h1 with h1 _
        exact ⟨i, by simp, h1⟩
    | false =>
      rw [hab] at h
      simp only [Bool.false_eq_true, if_false, List.mem_append] at h
      rcases h with h | h
      · rcases segStep_events_sub cfg fs i _ h with h1 | h1 | h1 | h1
        · exact absurd h1 (by simp)
        · exact absurd h1 (by simp)
        · obtain ⟨s', d', h1⟩ := h1
          exact absurd h1 (by simp)
        · obtain ⟨rec', h1⟩ := h1
          injection h1 with h1 _
          exact ⟨i, by simp, h1⟩
      · obtain ⟨j, hj, hjp⟩ := ih (segStep cfg fs i).fs p rec h
        exact ⟨j, by simp [hj], hjp⟩

theorem segLoop_created (cfg : SVConfig) (idxs : List Nat) (fs : FS)
    (hdry : cfg.dry_run = false) (hok : (segLoop cfg fs idxs).failed = none) :
    (segLoop cfg fs idxs).created = idxs.map (fun i => outFile cfg.root (i + 1)) := by
  induction idxs generalizing fs with
  | nil => rfl
  | cons i rest ih =>
    rw [segLoop_cons] at hok ⊢
    cases hab : (segStep cfg fs i).aborted with
    | true =>
      rw [hab] at hok
      simp at hok
    | false =>
      rw [hab] at hok
      simp only [Bool.false_eq_true, if_false] at hok ⊢
      rw [List.map_cons, segStep_not_aborted_created cfg fs i hdry hab,
        ih (segStep cfg fs i).fs hok]
      rfl

theorem segLoop_dry (cfg : SVConfig) (idxs : List Nat) (fs : FS)
    (hdry : cfg.dry_run = true) :
    (∀ p, (segLoop cfg fs idxs).fs.files p = fs.files p) ∧
    (∀ e ∈ (segLoop cfg fs idxs).events, ∃ q, e = Event.mkdir q) ∧
    (segLoop cfg fs idxs).failed = none ∧
    (segLoop cfg fs idxs).created = [] := by
  induction idxs generalizing fs with
  | nil => exact ⟨fun p => rfl, by simp [segLoop], rfl, rfl⟩
  | cons i rest ih =>
    rw [segLoop_cons, segStep_dry cfg fs i hdry]
    simp only [Bool.false_eq_true, if_false]
    obtain ⟨ih1, ih2, ih3, ih4⟩ := ih ⟨upd fs.dirs (partDir cfg.root (i + 1)) true, fs.files⟩
    refine ⟨fun p => ih1 p, ?_, ih3, by simp [ih4]⟩
    intro e he
    simp only [List.mem_append, List.mem_singleton] at he
    rcases he with he | he
    · exact ⟨partDir cfg.root (i + 1), he⟩
    · exact ih2 e he

/-- Claim C2, counterexample: a dry run is not free of filesystem
mutation: on a fresh filesystem, a dry run over a 125 second source
still creates the output root directory (and the per-part directories),
as both the state change and the recorded mkdir event show. -/
theorem claim_C2_counterexample :
    (FS.mk (fun _ => false) (fun _ => none)).dirs "out".data = false ∧
    (split_video "in.mp4".data 60 (some "out".data) false true (125 : ℚ)
      (fun p => p) (fun _ => true) ⟨fun _ => false, fun _ => none⟩).fs.dirs "out".data = true ∧
    (split_video "in.mp4".data 60 (some "out".data) false true (125 : ℚ)
      (fun p => p) (fun _ => true) ⟨fun _ => false, fun _ => none⟩).fs.dirs
        "out/part_001".data = true ∧
    Event.mkdir "out".data ∈
      (split_video "in.mp4".data 60 (some "out".data) false true (125 : ℚ)
        (fun p => p) (fun _ => true) ⟨fun _ => false, fun _ => none⟩).events := by
  refine ⟨rfl, ?_, ?_, ?_⟩ <;> decide

/-- Claim C2, amended: in dry-run mode split_video writes no file,
removes no file and never invokes the transcode collaborator (its whole
event log consists of directory creations and it always completes with
an empty outputs list), but it does mutate the filesystem by creating
the output root and the per-part directories. -/
theorem claim_C2_amended_dry_run_effects (input_path : PyStr) (max_part_seconds : Nat)
    (output_root : Option PyStr) (overwrite : Bool) (probe : ℚ)
    (abspath : PyStr → PyStr) (ffmpegOk : Nat → Bool) (fs0 : FS)
    (r : SplitResult)
    (hr : r = split_video input_path max_part_seconds output_root overwrite true
      probe abspath ffmpegOk fs0) :
    (∀ p, r.fs.files p = fs0.files p) ∧
    (∀ e ∈ r.events, ∃ q, e = Event.mkdir q) ∧
    r.failed = none ∧
    (∀ s, r.summary = some s → s.outputs = []) := by
  subst hr
  unfold split_video
  obtain ⟨h1, h2, h3, h4⟩ := segLoop_dry
    ⟨input_path, max_part_seconds, ((total_seconds_int probe).toNat),
      resolveRoot input_path output_root, overwrite, true, abspath, ffmpegOk⟩
    (List.range (numParts ((total_seconds_int probe).toNat) max_part_seconds))
    (ensureDir fs0 (resolveRoot input_path output_root)) rfl
  refine ⟨fun p => h1 p, ?_, h3, ?_⟩
  · intro e he
    simp only [List.mem_cons] at he
    rcases he with he | he
    · exact ⟨resolveRoot input_path output_root, he⟩
    · exact h2 e he
  · intro s hs
    simp only [h3] at hs
    injection hs with hs
    rw [← hs]
    simp [h4]

theorem claim_C2_witness :
    (∀ p, (split_video "in.mp4".data 60 (some "out".data) false true (125 : ℚ)
      (fun p => p) (fun _ => true) ⟨fun _ => false, fun _ => none⟩).fs.files p =
        (FS.mk (fun _ => false) (fun _ => none)).files p) ∧
    (split_video "in.mp4".data 60 (some "out".data) false true (125 : ℚ)
      (fun p => p) (fun _ => true) ⟨fun _ => false, fun _ => none⟩).failed = none := by
  have h := claim_C2_amended_dry_run_effects "in.mp4".data 60 (some "out".data) false
    (125 : ℚ) (fun p => p) (fun _ => true) ⟨fun _ => false, fun _ => none⟩ _ rfl
  exact ⟨h.1, h.2.2.1⟩

/-- Claim C7: a non-positive parsed maximum segment length makes the
program exit with the dedicated error before any planning or segment
production, and conversely any run that reaches split_video was started
with a positive parsed maximum. -/
theorem claim_C7_nonpositive_max_rejected :
    (∀ (maxArg : String) (input_path : PyStr) (output_root : Option PyStr)
      (overwrite dry_run : Bool) (probe : ℚ) (abspath : PyStr → PyStr)
      (ffmpegOk : Nat → Bool) (fs0 : FS) (v : Int),
      parse_duration_to_seconds maxArg = .ok v → v ≤ 0 →
      mainEntry true maxArg input_path output_root overwrite dry_run probe abspath
        ffmpegOk fs0 = .nonPositiveMax) ∧
    (∀ (input_exists : Bool) (maxArg : String) (input_path : PyStr)
      (output_root : Option PyStr) (overwrite dry_run : Bool) (probe : ℚ)
      (abspath : PyStr → PyStr) (ffmpegOk : Nat → Bool) (fs0 : FS) (r : SplitResult),
      mainEntry input_exists maxArg input_path output_root overwrite dry_run probe
        abspath ffmpegOk fs0 = .ran r →
      ∃ v : Int, parse_duration_to_seconds maxArg = .ok v ∧ 0 < v) := by
  constructor
  · intro maxArg input_path output_root overwrite dry_run probe abspath ffmpegOk fs0 v hv hle
    unfold mainEntry
    rw [hv]
    simp only [Bool.not_true, Bool.false_eq_true, if_false]
    rw [if_pos hle]
  · intro input_exists maxArg input_path output_root overwrite dry_run probe abspath
      ffmpegOk fs0 r h
    unfold mainEntry at h
    split at h
    · exact absurd h (by simp)
    · split at h
      · exact absurd h (by simp)
      · rename_i v hv
        split at h
        · exact absurd h (by simp)
        · rename_i hpos
          exact ⟨v, hv, by omega⟩

theorem claim_C7_witness :
    parse_duration_to_seconds "0" = .ok 0 ∧ (0 : Int) ≤ 0 ∧
    mainEntry true "0" "in.mp4".data (some "out".data) false false (125 : ℚ)
      (fun p => p) (fun _ => true) ⟨fun _ => false, fun _ => none⟩ = .nonPositiveMax :=
  ⟨by decide, by decide,
    claim_C7_nonpositive_max_rejected.1 "0" "in.mp4".data (some "out".data) false false
      (125 : ℚ) (fun p => p) (fun _ => true) ⟨fun _ => false, fun _ => none⟩ 0
      (by decide) (by decide)⟩

theorem outFile_succ_injective (root : PyStr) {i j : Nat}
    (h : outFile root (i + 1) = outFile root (j + 1)) : i = j := by
  have := outFile_injective root h
  omega

theorem segLoop_cons_abort (cfg : SVConfig) (fs : FS) (i : Nat) (rest : List Nat)
    (h : (segStep cfg fs i).aborted = true) :
    segLoop cfg fs (i :: rest) =
      { fs := (segStep cfg fs i).fs, events := (segStep cfg fs i).events,
        created := (segStep cfg fs i).created, failed := some (i + 1) } := by
  rw [segLoop_cons, if_pos h]

theorem segLoop_cons_continue (cfg : SVConfig) (fs : FS) (i : Nat) (rest : List Nat)
    (h : (segStep cfg fs i).aborted = false) :
    segLoop cfg fs (i :: rest) =
      { fs := (segLoop cfg (segStep cfg fs i).fs rest).fs,
        events := (segStep cfg fs i).events ++ (segLoop cfg (segStep cfg fs i).fs rest).events,
        created := (segStep cfg fs i).created ++ (segLoop cfg (segStep cfg fs i).fs rest).created,
        failed := (segLoop cfg (segStep cfg fs i).fs rest).failed } := by
  rw [segLoop_cons, if_neg (by simp [h])]

theorem segLoop_fail_fast (cfg : SVConfig) (hdry : cfg.dry_run = false) :
    ∀ (k cnt a : Nat) (fs : FS), k < cnt →
    (∀ j, j ≤ k → fs.files (outFile cfg.root (a + j + 1)) = none) →
    (∀ j, j < k → cfg.ffmpegOk (a + j) = true) →
    cfg.ffmpegOk (a + k) = false →
    (segLoop cfg fs (List.range' a cnt)).failed = some (a + k + 1) ∧
    (∀ s inp d o, Event.ffmpeg s inp d o ∈ (segLoop cfg fs (List.range' a cnt)).events →
      ∃ i, a ≤ i ∧ i ≤ a + k ∧ o = outFile cfg.root (i + 1)) ∧
    (∀ p rec, Event.writeInfo p rec ∈ (segLoop cfg fs (List.range' a cnt)).events →
      ∃ i, a ≤ i ∧ i < a + k ∧ p = infoPath cfg.root (i + 1)) ∧
    (∀ j, j < k → (segLoop cfg fs (List.range' a cnt)).fs.files (outFile cfg.root (a + j + 1)) =
      some (.media cfg.input_path (segStart cfg.max_part_seconds (a + j))
        (segDuration cfg.total_seconds cfg.max_part_seconds (a + j)))) ∧
    (∀ p, (∀ i, a ≤ i → i ≤ a + k → ¬ p = outFile cfg.root (i + 1)) →
      (∀ i, a ≤ i → i < a + k → ¬ p = infoPath cfg.root (i + 1)) →
      (segLoop cfg fs (List.range' a cnt)).fs.files p = fs.files p) := by
  intro k
  induction k with
  | zero =>
    intro cnt a fs hcnt hfresh hprev hbad
    obtain ⟨cnt', rfl⟩ : ∃ cnt', cnt = cnt' + 1 := ⟨cnt - 1, by omega⟩
    have hstep := segStep_fail cfg fs a hdry (hfresh 0 (by omega)) hbad
    rw [List.range'_succ, segLoop_cons_abort cfg fs a _ (by rw [hstep])]
    refine ⟨rfl, ?_, ?_, ?_, ?_⟩
    · intro s inp d o ho
      rw [hstep] at ho
      simp only [List.mem_cons, List.not_mem_nil, or_false] at ho
      rcases ho with ho | ho
      · exact absurd ho (by simp)
      · injection ho with _ _ _ ho
        exact ⟨a, by omega, by omega, ho⟩
    · intro p rec hp
      rw [hstep] at hp
      simp only [List.mem_cons, List.not_mem_nil, or_false] at hp
      rcases hp with hp | hp
      · exact absurd hp (by simp)
      · exact absurd hp (by simp)
    · intro j hj
      omega
    · intro p hp1 hp2
      rw [hstep]
  | succ k ih =>
    intro cnt a fs hcnt hfresh hprev hbad
    obtain ⟨cnt', rfl⟩ : ∃ cnt', cnt = cnt' + 1 := ⟨cnt - 1, by omega⟩
    have hstep := segStep_create cfg fs a hdry (hfresh 0 (by omega)) (hprev 0 (by omega))
    rw [List.range'_succ, segLoop_cons_continue cfg fs a _ (by rw [hstep])]
    have hfiles1 : ∀ q, ¬ q = outFile cfg.root (a + 1) → ¬ q = infoPath cfg.root (a + 1) →
        (segStep cfg fs a).fs.files q = fs.files q := by
      intro q h1 h2
      rw [hstep]
      simp [upd, h1, h2]
    have hfresh' : ∀ j, j ≤ k →
        (segStep cfg fs a).fs.files (outFile cfg.root (a + 1 + j + 1)) = none := by
      intro j hj
      rw [hfiles1 _ (fun h => by have := outFile_succ_injective cfg.root h; omega)
        (outFile_ne_infoPath cfg.root _ _)]
      have := hfresh (j + 1) (by omega)
      rw [show a + (j + 1) + 1 = a + 1 + j + 1 by omega] at this
      exact this
    have hprev' : ∀ j, j < k → cfg.ffmpegOk (a + 1 + j) = true := by
      intro j hj
      have := hprev (j + 1) (by omega)
      rw [show a + (j + 1) = a + 1 + j by omega] at this
      exact this
    have hbad' : cfg.ffmpegOk (a + 1 + k) = false := by
      rw [show a + 1 + k = a + (k + 1) by omega]
      exact hbad
    obtain ⟨ih1, ih2, ih3, ih4, ih5⟩ :=
      ih cnt' (a + 1) (segStep cfg fs a).fs (by omega) hfresh' hprev' hbad'
    refine ⟨?_, ?_, ?_, ?_, ?_⟩
    · show (segLoop cfg (segStep cfg fs a).fs (List.range' (a + 1) cnt')).failed = _
      rw [ih1]
      congr 1
      omega
    · intro s inp d o ho
      simp only [List.mem_append] at ho
      rcases ho with ho | ho
      · rw [hstep] at ho
        simp only [List.mem_cons, List.not_mem_nil, or_false] at ho
        rcases ho with ho | ho | ho
        · exact absurd ho (by simp)
        · injection ho with _ _ _ ho
          exact ⟨a, by omega, by omega, ho⟩
        · exact absurd ho (by simp)
      · obtain ⟨i, hi1, hi2, hi3⟩ := ih2 s inp d o ho
        exact ⟨i, by omega, by omega, hi3⟩
    · intro p rec hp
      simp only [List.mem_append] at hp
      rcases hp with hp | hp
      · rw [hstep] at hp
        simp only [List.mem_cons, List.not_mem_nil, or_false] at hp
        rcases hp with hp | hp | hp
        · exact absurd hp (by simp)
        · exact absurd hp (by simp)
        · injection hp with hp _
          exact ⟨a, by omega, by omega, hp⟩
      · obtain ⟨i, hi1, hi2, hi3⟩ := ih3 p rec hp
        exact ⟨i, by omega, by omega, hi3⟩
    · intro j hj
      rcases Nat.eq_zero_or_pos j with rfl | hj0
      · show (segLoop cfg (segStep cfg fs a).fs (List.range' (a + 1) cnt')).fs.files
          (outFile cfg.root (a + 0 + 1)) = _
        rw [ih5 _ (fun i hi1 hi2 h => by have := outFile_succ_injective cfg.root h; omega)
          (fun i hi1 hi2 h => outFile_ne_infoPath cfg.root _ _ h)]
        rw [hstep]
        show upd (upd fs.files _ _) _ _ _ = _
        rw [upd]
        rw [if_neg (outFile_ne_infoPath cfg.root _ _)]
        rw [upd, if_pos rfl]
        rfl
      · obtain ⟨j', rfl⟩ : ∃ j', j = j' + 1 := ⟨j - 1, by omega⟩
        have := ih4 j' (by omega)
        rw [show a + 1 + j' = a + (j' + 1) by omega] at this
        exact this
    · intro p hp1 hp2
      show (segLoop cfg (segStep cfg fs a).fs (List.range' (a + 1) cnt')).fs.files p = _
      rw [ih5 p (fun i hi1 hi2 => hp1 i (by omega) (by omega))
        (fun i hi1 hi2 => hp2 i (by omega) (by omega))]
      exact hfiles1 p (hp1 a (by omega) (by omega)) (hp2 a (by omega) (by omega))

theorem infoPath_succ_injective (root : PyStr) {i j : Nat}
    (h : infoPath root (i + 1) = infoPath root (j + 1)) : i = j := by
  have := infoPath_injective root h
  omega

theorem split_video_eq (input_path : PyStr) (max_part_seconds : Nat)
    (output_root : Option PyStr) (overwrite dry_run : Bool) (probe : ℚ)
    (abspath : PyStr → PyStr) (ffmpegOk : Nat → Bool) (fs0 : FS) :
    split_video input_path max_part_seconds output_root overwrite dry_run probe
        abspath ffmpegOk fs0 =
      { fs := (segLoop
          ⟨input_path, max_part_seconds, (total_seconds_int probe).toNat,
            resolveRoot input_path output_root, overwrite, dry_run, abspath, ffmpegOk⟩
          (ensureDir fs0 (resolveRoot input_path output_root))
          (List.range (numParts (total_seconds_int probe).toNat max_part_seconds))).fs
        events := .mkdir (resolveRoot input_path output_root) :: (segLoop
          ⟨input_path, max_part_seconds, (total_seconds_int probe).toNat,
            resolveRoot input_path output_root, overwrite, dry_run, abspath, ffmpegOk⟩
          (ensureDir fs0 (resolveRoot input_path output_root))
          (List.range (numParts (total_seconds_int probe).toNat max_part_seconds))).events
        failed := (segLoop
          ⟨input_path, max_part_seconds, (total_seconds_int probe).toNat,
            resolveRoot input_path output_root, overwrite, dry_run, abspath, ffmpegOk⟩
          (ensureDir fs0 (resolveRoot input_path output_root))
          (List.range (numParts (total_seconds_int probe).toNat max_part_seconds))).failed
        summary :=
          match (segLoop
            ⟨input_path, max_part_seconds, (total_seconds_int probe).toNat,
              resolveRoot input_path output_root, overwrite, dry_run, abspath, ffmpegOk⟩
            (ensureDir fs0 (resolveRoot input_path output_root))
            (List.range (numParts (total_seconds_int probe).toNat max_part_seconds))).failed with
          | some _ => none
          | none => some ⟨(total_seconds_int probe).toNat, max_part_seconds,
              numParts (total_seconds_int probe).toNat max_part_seconds,
              abspath (resolveRoot input_path output_root), (segLoop
                ⟨input_path, max_part_seconds, (total_seconds_int probe).toNat,
                  resolveRoot input_path output_root, overwrite, dry_run, abspath, ffmpegOk⟩
                (ensureDir fs0 (resolveRoot input_path output_root))
                (List.range (numParts (total_seconds_int probe).toNat
                  max_part_seconds))).created⟩ } := rfl

/-- Claim C4: when the transcode collaborator is invoked for the fresh
0-based segment k of the plan and fails while all earlier invocations
succeed, the run aborts reporting part k + 1 and returns no summary,
no segment after k is ever transcoded, no metadata record is written for
segment k, and the artifacts produced for the segments before k remain
on disk exactly as the collaborator wrote them. -/
theorem claim_C4_fail_fast (input_path : PyStr) (max_part_seconds : Nat)
    (output_root : Option PyStr) (overwrite : Bool) (probe : ℚ)
    (abspath : PyStr → PyStr) (ffmpegOk : Nat → Bool) (fs0 : FS) (k : Nat)
    (root : PyStr) (hroot : root = resolveRoot input_path output_root)
    (r : SplitResult)
    (hr : r = split_video input_path max_part_seconds output_root overwrite false
      probe abspath ffmpegOk fs0)
    (hk : k < numParts (total_seconds_int probe).toNat max_part_seconds)
    (hfresh : ∀ j, j ≤ k → fs0.files (outFile root (j + 1)) = none)
    (hok : ∀ j, j < k → ffmpegOk j = true)
    (hbad : ffmpegOk k = false) :
    r.failed = some (k + 1) ∧
    r.summary = none ∧
    (∀ j, k < j → ∀ s inp d, Event.ffmpeg s inp d (outFile root (j + 1)) ∉ r.events) ∧
    (∀ rec, Event.writeInfo (infoPath root (k + 1)) rec ∉ r.events) ∧
    r.fs.files (infoPath root (k + 1)) = fs0.files (infoPath root (k + 1)) ∧
    (∀ j, j < k → r.fs.files (outFile root (j + 1)) =
      some (.media input_path (segStart max_part_seconds j)
        (segDuration (total_seconds_int probe).toNat max_part_seconds j))) := by
  subst hroot
  subst hr
  rw [split_video_eq]
  obtain ⟨l1, l2, l3, l4, l5⟩ := segLoop_fail_fast
    ⟨input_path, max_part_seconds, (total_seconds_int probe).toNat,
      resolveRoot input_path output_root, overwrite, false, abspath, ffmpegOk⟩ rfl
    k (numParts (total_seconds_int probe).toNat max_part_seconds) 0
    (ensureDir fs0 (resolveRoot input_path output_root)) hk
    (fun j hj => by simpa using hfresh j hj)
    (fun j hj => by simpa using hok j hj)
    (by simpa using hbad)
  rw [← List.range_eq_range'] at l1 l2 l3 l4 l5
  simp only [Nat.zero_add] at l1 l2 l3 l4 l5
  refine ⟨l1, by rw [l1], ?_, ?_, ?_, ?_⟩
  · intro j hj s inp d hmem
    simp only [List.mem_cons] at hmem
    rcases hmem with hmem | hmem
    · exact absurd hmem (by simp)
    · obtain ⟨i, hi1, hi2, hi3⟩ := l2 s inp d _ hmem
      have : i = j := outFile_succ_injective _ hi3.symm
      omega
  · intro rec hmem
    simp only [List.mem_cons] at hmem
    rcases hmem with hmem | hmem
    · exact absurd hmem (by simp)
    · obtain ⟨i, hi1, hi2, hi3⟩ := l3 _ rec hmem
      have : i = k := infoPath_succ_injective _ hi3.symm
      omega
  · exact l5 _ (fun i hi1 hi2 h => outFile_ne_infoPath _ (i + 1) (k + 1) h.symm)
      (fun i hi1 hi2 h => by have := infoPath_succ_injective _ h; omega)
  · intro j hj
    exact l4 j hj

theorem claim_C4_witness :
    (split_video "in.mp4".data 60 (some "out".data) false false (125 : ℚ)
      (fun p => p) (fun i => i == 0) ⟨fun _ => false, fun _ => none⟩).failed = some 2 ∧
    (split_video "in.mp4".data 60 (some "out".data) false false (125 : ℚ)
      (fun p => p) (fun i => i == 0) ⟨fun _ => false, fun _ => none⟩).summary = none := by
  have h := claim_C4_fail_fast "in.mp4".data 60 (some "out".data) false (125 : ℚ)
    (fun p => p) (fun i => i == 0) ⟨fun _ => false, fun _ => none⟩ 1 "out".data
    (by decide) _ rfl (by decide) (by decide) (by decide) (by decide)
  exact ⟨h.1, h.2.1⟩

theorem segLoop_skip_existing (cfg : SVConfig) (hdry : cfg.dry_run = false)
    (hov : cfg.overwrite = false) (k : Nat) (c : FileData) :
    ∀ (cnt a : Nat) (fs : FS), a ≤ k → k < a + cnt →
    fs.files (outFile cfg.root (k + 1)) = some c →
    (segLoop cfg fs (List.range' a cnt)).failed = none →
    (segLoop cfg fs (List.range' a cnt)).created =
      (List.range' a cnt).map (fun i => outFile cfg.root (i + 1)) ∧
    (segLoop cfg fs (List.range' a cnt)).fs.files (outFile cfg.root (k + 1)) = some c ∧
    (segLoop cfg fs (List.range' a cnt)).fs.files (infoPath cfg.root (k + 1)) =
      some (.infoJson (mkInfo cfg k)) ∧
    (∀ s inp d, Event.ffmpeg s inp d (outFile cfg.root (k + 1)) ∉
      (segLoop cfg fs (List.range' a cnt)).events) := by
  intro cnt
  induction cnt with
  | zero => intro a fs h1 h2; omega
  | succ cnt ih =>
    intro a fs hak hka hex hfail
    rw [List.range'_succ] at hfail ⊢
    rcases Nat.eq_or_lt_of_le hak with rfl | hlt
    · -- the head index is the skipped segment itself
      have hstep := segStep_skip cfg fs a c hdry hov hex
      rw [segLoop_cons_continue cfg fs a _ (by rw [hstep])] at hfail ⊢
      simp only at hfail
      have hrest_frame := segLoop_files_frame cfg (List.range' (a + 1) cnt)
        (segStep cfg fs a).fs
      have hne_out : ∀ i ∈ List.range' (a + 1) cnt,
          ¬ outFile cfg.root (a + 1) = outFile cfg.root (i + 1) ∧
          ¬ outFile cfg.root (a + 1) = infoPath cfg.root (i + 1) := by
        intro i hi
        rw [List.mem_range'] at hi
        obtain ⟨j, hj, rfl⟩ := hi
        exact ⟨fun h => by have := outFile_succ_injective cfg.root h; omega,
          outFile_ne_infoPath cfg.root _ _⟩
      have hne_info : ∀ i ∈ List.range' (a + 1) cnt,
          ¬ infoPath cfg.root (a + 1) = outFile cfg.root (i + 1) ∧
          ¬ infoPath cfg.root (a + 1) = infoPath cfg.root (i + 1) := by
        intro i hi
        rw [List.mem_range'] at hi
        obtain ⟨j, hj, rfl⟩ := hi
        exact ⟨fun h => outFile_ne_infoPath cfg.root _ _ h.symm,
          fun h => by have := infoPath_succ_injective cfg.root h; omega⟩
      refine ⟨?_, ?_, ?_, ?_⟩
      · show (segStep cfg fs a).created ++ _ = _
        rw [List.map_cons, segStep_not_aborted_created cfg fs a hdry (by rw [hstep]),
          segLoop_created cfg _ _ hdry hfail]
        rfl
      · show (segLoop cfg (segStep cfg fs a).fs (List.range' (a + 1) cnt)).fs.files _ = _
        rw [hrest_frame _ hne_out, hstep]
        show upd fs.files _ _ _ = _
        rw [upd, if_neg (fun h => outFile_ne_infoPath cfg.root _ _ h)]
        exact hex
      · show (segLoop cfg (segStep cfg fs a).fs (List.range' (a + 1) cnt)).fs.files _ = _
        rw [hrest_frame _ hne_info, hstep]
        show upd fs.files _ _ _ = _
        rw [upd, if_pos rfl]
      · intro s inp d hmem
        rw [List.mem_append] at hmem
        rcases hmem with hmem | hmem
        · rw [hstep] at hmem
          simp only [List.mem_cons, List.not_mem_nil, or_false] at hmem
          rcases hmem with hmem | hmem
          · exact absurd hmem (by simp)
          · exact absurd hmem (by simp)
        · obtain ⟨i, hi, hio⟩ := segLoop_ffmpeg_events cfg _ _ s inp d _ hmem
          rw [List.mem_range'] at hi
          obtain ⟨j, hj, rfl⟩ := hi
          have := outFile_succ_injective cfg.root hio
          omega
    · -- the head index a is strictly before k
      have hne_k_a : ¬ outFile cfg.root (k + 1) = outFile cfg.root (a + 1) := by
        intro h
        have := outFile_succ_injective cfg.root h
        omega
      have hne_k_ia : ¬ outFile cfg.root (k + 1) = infoPath cfg.root (a + 1) :=
        outFile_ne_infoPath cfg.root _ _
      cases hab : (segStep cfg fs a).aborted with
      | true =>
        rw [segLoop_cons_abort cfg fs a _ hab] at hfail
        simp at hfail
      | false =>
        rw [segLoop_cons_continue cfg fs a _ hab] at hfail ⊢
        simp only at hfail
        have hex1 : (segStep cfg fs a).fs.files (outFile cfg.root (k + 1)) = some c := by
          rw [segStep_files_frame cfg fs a _ hne_k_a hne_k_ia]
          exact hex
        obtain ⟨ih1, ih2, ih3, ih4⟩ := ih (a + 1) (segStep cfg fs a).fs (by omega)
          (by omega) hex1 hfail
        refine ⟨?_, ih2, ih3, ?_⟩
        · show (segStep cfg fs a).created ++ _ = _
          rw [List.map_cons, segStep_not_aborted_created cfg fs a hdry hab, ih1]
          rfl
        · intro s inp d hmem
          rw [List.mem_append] at hmem
          rcases hmem with hmem | hmem
          · rcases segStep_events_sub cfg fs a _ hmem with h1 | h1 | h1 | h1
            · exact absurd h1 (by simp)
            · exact absurd h1 (by simp)
            · obtain ⟨s', d', h1⟩ := h1
              injection h1 with _ _ _ h1
              exact hne_k_a h1
            · obtain ⟨rec, h1⟩ := h1
              exact absurd h1 (by simp)
          · exact ih4 s inp d hmem
/-- Claim C5: a segment whose output file already exists is skipped when
overwrite is not requested: on a completed run the transcode collaborator
is never invoked for it and its media output keeps its prior contents,
yet its metadata record is still written with the planned fields, and its
output path still occupies position k of the ordered outputs list of the
summary. -/
theorem claim_C5_skip_existing (input_path : PyStr) (max_part_seconds : Nat)
    (output_root : Option PyStr) (probe : ℚ) (abspath : PyStr → PyStr)
    (ffmpegOk : Nat → Bool) (fs0 : FS) (k : Nat) (c : FileData)
    (root : PyStr) (hroot : root = resolveRoot input_path output_root)
    (r : SplitResult)
    (hr : r = split_video input_path max_part_seconds output_root false false
      probe abspath ffmpegOk fs0)
    (hk : k < numParts (total_seconds_int probe).toNat max_part_seconds)
    (hex : fs0.files (outFile root (k + 1)) = some c)
    (hfail : r.failed = none) :
    (∀ s inp d, Event.ffmpeg s inp d (outFile root (k + 1)) ∉ r.events) ∧
    r.fs.files (outFile root (k + 1)) = some c ∧
    r.fs.files (infoPath root (k + 1)) = some (.infoJson
      { index := k + 1, start_seconds := segStart max_part_seconds k,
        duration_seconds := segDuration (total_seconds_int probe).toNat max_part_seconds k,
        end_seconds := segStart max_part_seconds k +
          segDuration (total_seconds_int probe).toNat max_part_seconds k,
        source_file := abspath input_path }) ∧
    (∃ s, r.summary = some s ∧ s.outputs.get? k = some (outFile root (k + 1))) := by
  subst hroot
  subst hr
  rw [split_video_eq] at hfail ⊢
  have hfailR : (segLoop
      ⟨input_path, max_part_seconds, (total_seconds_int probe).toNat,
        resolveRoot input_path output_root, false, false, abspath, ffmpegOk⟩
      (ensureDir fs0 (resolveRoot input_path output_root))
      (List.range (numParts (total_seconds_int probe).toNat max_part_seconds))).failed =
      none := hfail
  have hfail' := hfailR
  rw [List.range_eq_range'] at hfail'
  obtain ⟨m1, m2, m3, m4⟩ := segLoop_skip_existing
    ⟨input_path, max_part_seconds, (total_seconds_int probe).toNat,
      resolveRoot input_path output_root, false, false, abspath, ffmpegOk⟩
    rfl rfl k c
    (numParts (total_seconds_int probe).toNat max_part_seconds) 0
    (ensureDir fs0 (resolveRoot input_path output_root)) (by omega) (by omega) hex hfail'
  rw [← List.range_eq_range'] at m1 m2 m3 m4
  refine ⟨?_, m2, m3, ?_⟩
  · intro s inp d hmem
    simp only [List.mem_cons] at hmem
    rcases hmem with hmem | hmem
    · exact absurd hmem (by simp)
    · exact m4 s inp d hmem
  · refine ⟨⟨(total_seconds_int probe).toNat, max_part_seconds,
      numParts (total_seconds_int probe).toNat max_part_seconds,
      abspath (resolveRoot input_path output_root),
      (segLoop
        ⟨input_path, max_part_seconds, (total_seconds_int probe).toNat,
          resolveRoot input_path output_root, false, false, abspath, ffmpegOk⟩
        (ensureDir fs0 (resolveRoot input_path output_root))
        (List.range (numParts (total_seconds_int probe).toNat
          max_part_seconds))).created⟩, ?_, ?_⟩
    · show (match (segLoop _ _ (List.range _)).failed with
        | some _ => none
        | none => some _ : Option Summary) = _
      rw [hfailR]
    · show ((segLoop _ _ (List.range _)).created).get? k = _
      rw [m1, List.range_eq_range', List.get?_map]
      rw [← List.range_eq_range', List.get?_range hk]
      rfl

theorem claim_C5_witness :
    (split_video "in.mp4".data 60 (some "out".data) false false (125 : ℚ)
      (fun p => p) (fun _ => true)
      ⟨fun _ => false,
        fun p => if p = outFile "out".data 2 then some (.pre 7) else none⟩).fs.files
      (outFile "out".data 2) = some (.pre 7) ∧
    (∃ s, (split_video "in.mp4".data 60 (some "out".data) false false (125 : ℚ)
      (fun p => p) (fun _ => true)
      ⟨fun _ => false,
        fun p => if p = outFile "out".data 2 then some (.pre 7) else none⟩).summary =
        some s ∧ s.outputs.get? 1 = some (outFile "out".data 2)) := by
  have h := claim_C5_skip_existing "in.mp4".data 60 (some "out".data) (125 : ℚ)
    (fun p => p) (fun _ => true)
    ⟨fun _ => false, fun p => if p = outFile "out".data 2 then some (.pre 7) else none⟩
    1 (.pre 7) "out".data (by decide) _ rfl (by decide) (by decide) (by decide)
  exact ⟨h.2.1, h.2.2.2⟩
